import Mathlib

/-!
Verification of the ufunc dispatch core (numbapro/_minidispatch.pyx).

The executor (run_higher_dimensional), the dimension collapsing loop in
run_ufunc, and the dispatch pipeline of UFuncDispatcher.__call__ are embedded
directly from the source.  Collaborator code that is part of the repository but
not present under src (miniutils.pyx: broadcast_arrays / is_broadcasting,
_internal.c: get_arrays_ordering) and the NumPy primitives the source delegates
to (np.broadcast, np.empty) are modelled from the specification; each such
definition says so in its doc comment.
-/

namespace MiniDispatch

/-- Per-call mutable pointer state of run_higher_dimensional:
for each operand, the current data pointer (an address, modelled as an
integer) and the current offset of that operand's stride pointer from the
base of its stride row (the C code moves the stride pointers themselves;
an offset into the fixed stride row is the same information). -/
structure ExecState where
  data : List Int
  soff : List Nat
  deriving DecidableEq, Repr

/-- The arguments of one base-case (leaf) kernel invocation, as
run_higher_dimensional passes them: the shape pointer advanced to
dim_level, the current data pointers, and the advanced stride pointers
(each stride row viewed from its current offset). -/
structure Inv where
  shape : List Int
  data : List Int
  strides : List (List Int)
  deriving DecidableEq, Repr

/-- A kernel variant (minifunc): receives the remaining shape, the data
pointers and the stride pointers, and either succeeds or signals failure
(the C type is nogil except -1). -/
abbrev Kernel (E : Type) := List Int → List Int → List (List Int) → Except E Unit

/-- Result of a run: the sequence of leaf invocations performed (in order),
the pointer state when control leaves the call, and the propagated error,
if any. -/
abbrev RunOut (E : Type) := List Inv × ExecState × Option E

/-- strides[j][d] where strides[j] is a stride pointer currently offset by o
from the base of operand j's stride row sj. -/
def strideAt (sj : List Int) (o : Nat) (d : Nat) : Int :=
  sj.getD (o + d) 0

/-- The base case of run_higher_dimensional (ndim <= 2): offset each stride
pointer by dim_level (guarded by `if dim_level:` in the source), invoke the
kernel with &shape[dim_level], the data pointers and the offset stride
pointers, and restore the stride pointers afterwards.  The restore runs only
on the success path: the source has no try/finally here, so an error return
from the kernel leaves the stride pointers offset. -/
def runBase {E : Type} (k : Kernel E) (shape : List Int)
    (strides : List (List Int)) (st : ExecState) (dimLevel : Nat) : RunOut E :=
  let soff1 := if dimLevel = 0 then st.soff else st.soff.map (fun o => o + dimLevel)
  let views := List.zipWith (fun sj o => sj.drop o) strides soff1
  let inv : Inv := { shape := shape.drop dimLevel, data := st.data, strides := views }
  match k inv.shape inv.data inv.strides with
  | Except.ok _ =>
      let soff2 := if dimLevel = 0 then soff1 else soff1.map (fun o => o - dimLevel)
      ([inv], { data := st.data, soff := soff2 }, none)
  | Except.error e => ([inv], { data := st.data, soff := soff1 }, some e)

/-- One loop step of the recursive case: after a successful recursive call,
each operand's data pointer is advanced by that operand's stride at the
current dimension (data_pointers[j] += strides[j][dim_level]). -/
def advanceData (strides : List (List Int)) (dimLevel : Nat) (st : ExecState) :
    ExecState :=
  { data := List.zipWith (fun dp p => dp + p) st.data
      (List.zipWith (fun sj o => strideAt sj o dimLevel) strides st.soff),
    soff := st.soff }

/-- After the loop, the data pointers are backed up by
shape[dim_level] * strides[j][dim_level]. -/
def rewindData (shape : List Int) (strides : List (List Int)) (dimLevel : Nat)
    (st : ExecState) : ExecState :=
  { data := List.zipWith (fun dp p => dp - shape.getD dimLevel 0 * p) st.data
      (List.zipWith (fun sj o => strideAt sj o dimLevel) strides st.soff),
    soff := st.soff }

/-- The loop `for i in range(shape[dim_level])` of the recursive case: run the
body (the recursive call) and, on success, advance the data pointers and
continue; an error return stops the loop at once, skipping both the advance
of the failing iteration and all later iterations. -/
def runIters {E : Type} (body : ExecState → RunOut E) (adv : ExecState → ExecState) :
    Nat → ExecState → RunOut E
  | 0, st => ([], st, none)
  | n + 1, st =>
      match body st with
      | (tr, st1, none) =>
          let rest := runIters body adv n (adv st1)
          (tr ++ rest.1, rest.2)
      | (tr, st1, some e) => (tr, st1, some e)

/-- run_higher_dimensional: for ndim <= 2 invoke the kernel (base case);
otherwise loop over shape[dim_level], recursing with (ndim - 1, dim_level + 1)
and advancing the data pointers after each successful iteration, then rewind
the data pointers after the loop.  An error propagates immediately: neither
the advance of a failing iteration nor the rewind after the loop runs on the
error path, exactly as in the source (no try/finally). -/
def runHD {E : Type} (k : Kernel E) (shape : List Int) (strides : List (List Int)) :
    Nat → Nat → ExecState → RunOut E
  | 0, dimLevel, st => runBase k shape strides st dimLevel
  | 1, dimLevel, st => runBase k shape strides st dimLevel
  | 2, dimLevel, st => runBase k shape strides st dimLevel
  | n + 3, dimLevel, st =>
      let cnt := (shape.getD dimLevel 0).toNat
      let out := runIters (runHD k shape strides (n + 2) (dimLevel + 1))
                   (advanceData strides dimLevel) cnt st
      match out with
      | (tr, st1, none) => (tr, rewindData shape strides dimLevel st1, none)
      | (tr, st1, some e) => (tr, st1, some e)

/-- All index combinations over the given extents, enumerated in
outside-in lexicographic order. -/
def lexIndices : List Nat → List (List Nat)
  | [] => [[]]
  | n :: rest => (List.range n).flatMap (fun i => (lexIndices rest).map (fun ix => i :: ix))

/-- The fully-indexed offset of an index vector against a stride row read
from position d onward: ix[0]*sj[d] + ix[1]*sj[d+1] + ... -/
def dotStrideAt : List Nat → List Int → Nat → Int
  | [], _, _ => 0
  | i :: ix, sj, d => (i : Int) * sj.getD d 0 + dotStrideAt ix sj (d + 1)

/-- The leaf invocation the executor invariant predicts for index vector ix
of the enclosing dimensions, for a run entered at dim_level dl with ndim
unprocessed dimensions: the kernel sees the trailing shape, each data pointer
advanced by the full index-to-offset sum, and each stride row viewed past the
enclosing dimensions. -/
def invSpec (shape : List Int) (strides : List (List Int)) (st : ExecState)
    (ndim dl : Nat) (ix : List Nat) : Inv :=
  { shape := shape.drop (dl + (ndim - 2)),
    data := List.zipWith (fun dp sj => dp + dotStrideAt ix sj dl) st.data strides,
    strides := strides.map (fun sj => sj.drop (dl + (ndim - 2))) }

/-- Memory order of an array or of an allocation request. -/
inductive MemOrder
  | rowMajor
  | colMajor
  deriving DecidableEq, Repr

/-- An operand as the dispatcher sees it: per-dimension extents, per-dimension
byte strides, element size, a dtype tag, and the buffer address. -/
structure Arr where
  shape : List Nat
  strides : List Int
  itemsize : Int
  dtype : Nat
  addr : Int
  deriving DecidableEq, Repr

/-- Row-major (C) strides implied by a shape and an element size. -/
def cStrides (isz : Int) : List Nat → List Int
  | [] => []
  | _ :: rest => isz * ((rest.map (fun e => (e : Int))).prod) :: cStrides isz rest

/-- Column-major (Fortran) strides implied by a shape and an element size. -/
def fStrides (isz : Int) : List Nat → List Int
  | [] => []
  | e :: rest => isz :: fStrides (isz * (e : Int)) rest

/-- The operand's declared strides are exactly the row-major strides implied
by its own shape. -/
def isCContig (a : Arr) : Bool := decide (a.strides = cStrides a.itemsize a.shape)

/-- The operand's declared strides are exactly the column-major strides
implied by its own shape. -/
def isFContig (a : Arr) : Bool := decide (a.strides = fStrides a.itemsize a.shape)

/-- The flag word get_arrays_ordering reports, as one field per flag the
dispatcher consults. -/
structure OrderFlags where
  arraysAreContig : Bool
  arraysAreInnerContig : Bool
  arraysAreMixed : Bool
  cOrder : Bool
  deriving DecidableEq, Repr

/-- Modelled from the spec: the Layout Classifier
(_internal.get_arrays_ordering, part of the repository but not under src; the
dispatcher calls it on the input operands only).  Fully contiguous: every
input uniformly matches the row-major, or uniformly the column-major, strides
implied by its shape.  Inner-contiguous: unit (element-size) stride in the
fastest-varying axis of every input.  Mixed: some but not all inputs
contiguous (the spec calls the exact boundary a heuristic).  Preferred order:
row-major unless the inputs are consistently column-major only. -/
def getArraysOrdering (args : List Arr) : OrderFlags :=
  let allC := args.all isCContig
  let allF := args.all isFContig
  let anyContig := args.any (fun a => isCContig a || isFContig a)
  { arraysAreContig := allC || allF,
    arraysAreInnerContig :=
      args.all (fun a => decide (a.strides.getLastD a.itemsize = a.itemsize)),
    arraysAreMixed := anyContig && !(allC || allF),
    cOrder := allC || !allF }

/-- One dimension of NumPy broadcasting: equal extents, or one side is 1. -/
def bcastDim (a b : Nat) : Option Nat :=
  if a = b then some a else if a = 1 then some b else if b = 1 then some a else none

/-- Pairwise NumPy broadcasting on reversed (trailing-aligned) shapes. -/
def bcast2R : List Nat → List Nat → Option (List Nat)
  | [], ys => some ys
  | x :: xs, [] => some (x :: xs)
  | x :: xs, y :: ys =>
      match bcastDim x y, bcast2R xs ys with
      | some d, some rest => some (d :: rest)
      | _, _ => none

/-- np.broadcast(*arrays) (external collaborator): fold of pairwise
broadcasting, on reversed shapes. -/
def npBroadcastShapesR (shapesR : List (List Nat)) : Option (List Nat) :=
  shapesR.foldl (fun acc s => acc.bind (fun u => bcast2R u s)) (some [])

/-- The unified shape np.broadcast reports, in leading-first order. -/
def npBroadcastShapes (shapes : List (List Nat)) : Option (List Nat) :=
  (npBroadcastShapesR (shapes.map List.reverse)).map List.reverse

/-- Modelled from the spec (4.1): the unified extent of one aligned
dimension is the common non-1 extent, 1 if there is none, and an error if
two non-1 extents differ. -/
def planDim (xs : List Nat) : Option Nat :=
  match xs.filter (fun x => decide (x ≠ 1)) with
  | [] => some 1
  | e :: rest => if rest.all (fun x => decide (x = e)) then some e else none

/-- Modelled from the spec (4.1): the planner's unified shape over reversed
shapes, one trailing-aligned dimension at a time, for the given number of
dimensions; shapes that have run out contribute the padding extent 1. -/
def planUnifiedAux : Nat → List (List Nat) → Option (List Nat)
  | 0, _ => some []
  | d + 1, shapesR =>
      match planDim (shapesR.map (fun s => s.headD 1)),
            planUnifiedAux d (shapesR.map List.tail) with
      | some e, some rest => some (e :: rest)
      | _, _ => none

/-- The number of dimensions of the unified shape: the longest operand. -/
def maxLen (shapes : List (List Nat)) : Nat :=
  shapes.foldr (fun s m => max s.length m) 0

/-- Modelled from the spec (4.1): the Broadcast Planner's unified shape. -/
def planUnified (shapes : List (List Nat)) : Option (List Nat) :=
  (planUnifiedAux (maxLen (shapes.map List.reverse)) (shapes.map List.reverse)).map
    List.reverse

/-- Modelled from the spec (4.1; broadcast_arrays of miniutils.pyx, part of
the repository but not under src): the planned per-operand stride vector
against the unified shape: left-pad with stride 0 for missing leading
dimensions, zero the stride where the operand declares extent 1 against a
greater unified extent, keep the declared stride elsewhere. -/
def plannedStrides (unified : List Nat) (a : Arr) : List Int :=
  List.replicate (unified.length - a.shape.length) 0 ++
    List.zipWith3 (fun (e : Nat) (u : Nat) (s : Int) =>
        if e = 1 ∧ 1 < u then 0 else s)
      a.shape (unified.drop (unified.length - a.shape.length)) a.strides

/-- Modelled from the spec (is_broadcasting of miniutils.pyx, part of the
repository but not under src): some participating operand does not already
have the unified shape, so some of its dimensions are virtually repeated or
padded. -/
def isBroadcasting (bargs : List Arr) (unified : List Nat) : Bool :=
  bargs.any (fun a => decide (a.shape ≠ unified))

/-- The four looping strategies. -/
inductive Strategy
  | contig
  | innerContig
  | tiled
  | strided
  deriving DecidableEq, Repr

/-- The strategy selection chain of UFuncDispatcher.__call__: fully
contiguous requires the contiguity flag and no broadcasting, then the
inner-contiguous flag, then the mixed flag, and strided is the unconditional
fallback else-branch. -/
def classifyStrategy (flags : OrderFlags) (anyB : Bool) : Strategy :=
  if flags.arraysAreContig && !anyB then Strategy.contig
  else if flags.arraysAreInnerContig then Strategy.innerContig
  else if flags.arraysAreMixed then Strategy.tiled
  else Strategy.strided

/-- A registered kernel bundle: the four variant entry points (as numeric
function-pointer tokens) and the result dtype. -/
structure Bundle where
  contigFunc : Nat
  innerContigFunc : Nat
  tiledFunc : Nat
  stridedFunc : Nat
  resultDtype : Nat
  deriving DecidableEq, Repr

/-- Which bundle entry point each strategy selects. -/
def selectFuncPtr (b : Bundle) : Strategy → Nat
  | Strategy.contig => b.contigFunc
  | Strategy.innerContig => b.innerContigFunc
  | Strategy.tiled => b.tiledFunc
  | Strategy.strided => b.stridedFunc

/-- Exact-match lookup in the specialization table. -/
def lookupSig : List ((List Nat × Nat) × Bundle) → (List Nat × Nat) → Option Bundle
  | [], _ => none
  | (key0, b) :: rest, key => if key0 = key then some b else lookupSig rest key

/-- The spec's distinguished error kinds for the dispatch call. -/
inductive DispatchError
  | arityError
  | shapeMismatch
  | unsupportedSignature
  deriving DecidableEq, Repr

/-- Observable per-call effects, logged in program order: broadcasting
succeeded, an output buffer was allocated, a strategy was selected, a kernel
entry point was invoked on the listed arrays (output first, as run_ufunc
receives them). -/
inductive Effect
  | broadcasted (unified : List Nat)
  | allocated (shape : List Nat) (dtype : Nat) (ord : MemOrder)
  | selected (strat : Strategy)
  | ranKernel (funcPtr : Nat) (arrays : List Arr)
  deriving DecidableEq, Repr

/-- The operands participating in broadcasting: the inputs, followed by the
supplied output if there is one (broadcast_args of the source). -/
def broadcastOperands (args : List Arr) (out : Option Arr) : List Arr :=
  args ++ (match out with | some o => [o] | none => [])

/-- np.empty (external collaborator): a fresh buffer of the given shape,
dtype and order, at an address the allocator chooses. -/
def npEmpty (shape : List Nat) (dtype : Nat) (ord : MemOrder) (isz : Int)
    (freshAddr : Int) : Arr :=
  { shape := shape,
    strides := match ord with
      | MemOrder.rowMajor => cStrides isz shape
      | MemOrder.colMajor => fStrides isz shape,
    itemsize := isz,
    dtype := dtype,
    addr := freshAddr }

/-- The tail of a successful dispatch: output allocation (only when no
output was supplied, in the classifier's preferred order), strategy
selection, and the kernel run on output-then-inputs (arrays.insert(0, out)
of run_ufunc).  The itemsize function and the fresh address are parameters
standing for the NumPy dtype table and the allocator. -/
def dispatchRun (args : List Arr) (out : Option Arr) (flags : OrderFlags)
    (unified : List Nat) (bundle : Bundle) (itemsize : Nat → Int)
    (freshAddr : Int) : List Effect × Except DispatchError (Option Arr) :=
  let allocEffects :=
    match out with
    | some _ => ([] : List Effect)
    | none => [Effect.allocated unified bundle.resultDtype
        (if flags.cOrder then MemOrder.rowMajor else MemOrder.colMajor)]
  let theOut :=
    match out with
    | some o => o
    | none => npEmpty unified bundle.resultDtype
        (if flags.cOrder then MemOrder.rowMajor else MemOrder.colMajor)
        (itemsize bundle.resultDtype) freshAddr
  let strat := classifyStrategy flags (isBroadcasting (broadcastOperands args out) unified)
  (Effect.broadcasted unified :: allocEffects ++
    [Effect.selected strat,
     Effect.ranKernel (selectFuncPtr bundle strat) (theOut :: args)],
   Except.ok none)

/-- UFuncDispatcher.__call__, step for step: the arity check comes first,
then np.broadcast over the inputs plus the supplied output, then the exact
signature lookup on (input dtypes, broadcast ndim), then the successful
tail; layout flags are computed on the inputs only.  The result is the
effect log together with what the call returns; run_ufunc has no return
statement, so a successful call returns none. -/
def dispatchCall (table : List ((List Nat × Nat) × Bundle)) (nin : Nat)
    (itemsize : Nat → Int) (freshAddr : Int)
    (args : List Arr) (out : Option Arr) :
    List Effect × Except DispatchError (Option Arr) :=
  if args.length ≠ nin then ([], Except.error DispatchError.arityError)
  else
    match npBroadcastShapes ((broadcastOperands args out).map Arr.shape) with
    | none => ([], Except.error DispatchError.shapeMismatch)
    | some unified =>
        match lookupSig table (args.map Arr.dtype, unified.length) with
        | none => ([Effect.broadcasted unified],
            Except.error DispatchError.unsupportedSignature)
        | some bundle =>
            dispatchRun args out (getArraysOrdering args) unified bundle
              itemsize freshAddr

/-- The dimension collapsing loop of run_ufunc: for each index i of the given
list, shape[0] is multiplied in place by shape[i]. -/
def collapseLoop (shape : List Int) : List Nat → List Int
  | [] => shape
  | i :: rest => collapseLoop (shape.set 0 (shape.getD 0 0 * shape.getD i 0)) rest

/-- The shape run_ufunc hands to the executor: collapsed over indices
3..ndim-1 when the fully-contiguous strategy was selected and ndim exceeds
3, untouched otherwise. -/
def runUFuncShape (contig : Bool) (ndim : Nat) (shape : List Int) : List Int :=
  if contig && decide (3 < ndim) then collapseLoop shape (List.range' 3 (ndim - 3))
  else shape

/-- run_ufunc after the scratch buffers are built: apply the collapse and
hand the (possibly collapsed) shape, with the untouched strides, data
pointers and dimension count, to run_higher_dimensional at dim_level 0. -/
def runUFunc {E : Type} (k : Kernel E) (contig : Bool) (ndim : Nat)
    (shape : List Int) (data : List Int) (strides : List (List Int)) : RunOut E :=
  runHD k (runUFuncShape contig ndim shape) strides ndim 0
    { data := data, soff := List.replicate strides.length 0 }

section ListHelpers

variable {α β γ δ : Type}

theorem zipWith_self_right (g : γ → β → δ) (f : α → β → γ) :
    ∀ (as : List α) (bs : List β),
      List.zipWith g (List.zipWith f as bs) bs =
        List.zipWith (fun a b => g (f a b) b) as bs
  | [], _ => by simp
  | _ :: _, [] => by simp
  | a :: as, b :: bs => by simp [zipWith_self_right g f as bs]

theorem zipWith_replicate_right (f : α → β → γ) (b : β) :
    ∀ (as : List α) (n : Nat), as.length = n →
      List.zipWith f as (List.replicate n b) = as.map (fun a => f a b)
  | [], _, h => by simp
  | a :: as, n, h => by
      cases n with
      | zero => simp at h
      | succ m =>
          simp only [List.replicate_succ, List.zipWith_cons_cons, List.map_cons]
          exact congrArg _ (zipWith_replicate_right f b as m (by simpa using h))

theorem zipWith_left_id (as : List α) (bs : List β) (h : as.length = bs.length) :
    List.zipWith (fun a (_ : β) => a) as bs = as := by
  induction as generalizing bs with
  | nil => simp
  | cons a as ih =>
      cases bs with
      | nil => simp at h
      | cons b bs => simp [ih bs (by simpa using h)]

theorem zipWith_ext (f g : α → β → γ) (h : ∀ a b, f a b = g a b)
    (as : List α) (bs : List β) : List.zipWith f as bs = List.zipWith g as bs := by
  have : f = g := funext fun a => funext fun b => h a b
  rw [this]

end ListHelpers

section ExecutorSuccess

variable {E : Type}

/-- With zero stride-pointer offsets, one advance step adds each operand's
stride at the current dimension to its data pointer. -/
theorem advanceData_zero_soff (strides : List (List Int)) (dl n : Nat)
    (st : ExecState) (hso : st.soff = List.replicate n 0)
    (hs : strides.length = n) :
    advanceData strides dl st =
      { data := List.zipWith (fun dp sj => dp + sj.getD dl 0) st.data strides,
        soff := st.soff } := by
  unfold advanceData
  congr 1
  rw [hso, zipWith_replicate_right _ _ strides n hs]
  have h1 : (fun sj : List Int => strideAt sj 0 dl) = fun sj : List Int => sj.getD dl 0 := by
    funext sj; simp [strideAt]
  rw [h1, List.zipWith_map_right]

/-- Iterating the advance step i times from zero offsets adds i times the
stride at the current dimension to each data pointer. -/
theorem advanceData_iterate (strides : List (List Int)) (dl n : Nat)
    (st : ExecState) (hso : st.soff = List.replicate n 0)
    (hd : st.data.length = n) (hs : strides.length = n) (i : Nat) :
    (advanceData strides dl)^[i] st =
      { data := List.zipWith (fun dp sj => dp + (i : Int) * sj.getD dl 0) st.data strides,
        soff := st.soff } := by
  induction i with
  | zero =>
      simp only [Function.iterate_zero_apply, Nat.cast_zero, zero_mul, add_zero]
      cases st with
      | mk d s =>
          simp only [ExecState.mk.injEq, and_true]
          exact (zipWith_left_id d strides (by simp_all)).symm
  | succ m ih =>
      rw [Function.iterate_succ_apply', ih]
      rw [advanceData_zero_soff strides dl n _ (by simpa using hso) hs]
      simp only [ExecState.mk.injEq, and_true]
      rw [zipWith_self_right]
      apply zipWith_ext
      intro a b
      push_cast
      ring

/-- The loop of the recursive case, when every iteration succeeds and
restores the state it was given: the traces concatenate in order and the
final state is the iterated advance. -/
theorem runIters_ok (body : ExecState → RunOut E) (adv : ExecState → ExecState)
    (P : ExecState → Prop) (T : ExecState → List Inv)
    (hadv : ∀ st, P st → P (adv st))
    (hbody : ∀ st, P st → body st = (T st, st, none)) :
    ∀ (cnt : Nat) (st : ExecState), P st →
      runIters body adv cnt st =
        ((List.range cnt).flatMap (fun i => T (adv^[i] st)), adv^[cnt] st, none) := by
  intro cnt
  induction cnt with
  | zero => intro st hP; simp [runIters]
  | succ m ih =>
      intro st hP
      rw [runIters, hbody st hP]
      simp only
      rw [ih (adv st) (hadv st hP)]
      rw [List.range_succ_eq_map]
      simp only [List.flatMap_cons, Function.iterate_zero_apply, List.flatMap_map,
        Function.iterate_succ_apply, Function.comp]

/-- The base case of the executor, entered with zero stride-pointer offsets
and a succeeding kernel: one leaf invocation with the trailing shape, the
current data pointers and the stride rows viewed past dim_level, and the
entry state is restored. -/
theorem runBase_ok (k : Kernel E) (hk : ∀ a b c, k a b c = Except.ok ())
    (shape : List Int) (strides : List (List Int)) (n : Nat)
    (hs : strides.length = n) (dl : Nat) (st : ExecState)
    (hso : st.soff = List.replicate n 0) :
    runBase k shape strides st dl =
      ([{ shape := shape.drop dl, data := st.data,
          strides := strides.map (fun sj => sj.drop dl) }], st, none) := by
  unfold runBase
  have h1 : (if dl = 0 then st.soff else st.soff.map (fun o => o + dl)) =
      List.replicate n dl := by
    split
    · simp_all
    · rw [hso, List.map_replicate]; simp
  have h2 : List.zipWith (fun (sj : List Int) (o : Nat) => sj.drop o) strides
      (List.replicate n dl) = strides.map (fun sj => sj.drop dl) :=
    zipWith_replicate_right _ _ strides n hs
  have h3 : (if dl = 0 then List.replicate n dl
      else (List.replicate n dl).map (fun o => o - dl)) = st.soff := by
    split
    · simp_all
    · rw [List.map_replicate, hso]; simp
  simp only [h1, h2, hk, h3]

/-- Base case of the success invariant: for ndim at most 2 the executor makes
exactly one leaf invocation, the one predicted for the empty index vector. -/
theorem runHD_ok_base (k : Kernel E) (hk : ∀ a b c, k a b c = Except.ok ())
    (shape : List Int) (strides : List (List Int)) (n : Nat)
    (hs : strides.length = n) (ndim dl : Nat) (hnd : ndim ≤ 2)
    (st : ExecState) (hso : st.soff = List.replicate n 0)
    (hd : st.data.length = n) :
    runHD k shape strides ndim dl st =
      ((lexIndices (((shape.drop dl).take (ndim - 2)).map Int.toNat)).map
          (invSpec shape strides st ndim dl), st, none) := by
  have hrb : runHD k shape strides ndim dl st = runBase k shape strides st dl := by
    interval_cases ndim <;> rfl
  have hnd2 : ndim - 2 = 0 := by omega
  rw [hrb, runBase_ok k hk shape strides n hs dl st hso, hnd2]
  simp only [List.take_zero, List.map_nil, lexIndices, List.map_cons, List.map_nil]
  have hinv : invSpec shape strides st ndim dl [] =
      { shape := shape.drop dl, data := st.data,
        strides := strides.map (fun sj => sj.drop dl) } := by
    unfold invSpec
    rw [hnd2]
    simp only [Nat.add_zero, dotStrideAt, add_zero, Inv.mk.injEq, and_true, true_and]
    exact zipWith_left_id st.data strides (hd.trans hs.symm)
  rw [hinv]

/-- The pointer rewind after a fully completed loop at one dimension exactly
undoes the advances of all its iterations. -/
theorem rewind_iterate (shape : List Int) (strides : List (List Int))
    (dl n : Nat) (st : ExecState) (hso : st.soff = List.replicate n 0)
    (hd : st.data.length = n) (hs : strides.length = n)
    (hnn : ∀ x ∈ shape, 0 ≤ x) (hdlt : dl < shape.length) :
    rewindData shape strides dl
      ((advanceData strides dl)^[(shape.getD dl 0).toNat] st) = st := by
  have hcast : (((shape.getD dl 0).toNat : Nat) : Int) = shape.getD dl 0 := by
    refine Int.toNat_of_nonneg (hnn _ ?_)
    have hgd : shape.getD dl 0 = shape[dl] := by
      exact List.getD_eq_getElem shape 0 hdlt
    rw [hgd]
    exact List.getElem_mem hdlt
  rw [advanceData_iterate strides dl n st hso hd hs]
  unfold rewindData
  simp only [hso]
  have hinner : List.zipWith (fun (sj : List Int) (o : Nat) => strideAt sj o dl)
      strides (List.replicate n 0) = strides.map (fun sj => sj.getD dl 0) := by
    rw [zipWith_replicate_right _ _ strides n hs]
    apply List.map_congr_left
    intro sj _
    simp [strideAt]
  rw [hinner, List.zipWith_map_right, zipWith_self_right]
  have hdone : List.zipWith
      (fun (dp : Int) (sj : List Int) =>
        dp + ((shape.getD dl 0).toNat : Int) * sj.getD dl 0 -
          shape.getD dl 0 * sj.getD dl 0) st.data strides = st.data := by
    rw [zipWith_ext _ (fun (dp : Int) (_ : List Int) => dp) ?_ st.data strides]
    · exact zipWith_left_id st.data strides (hd.trans hs.symm)
    · intro a b
      rw [hcast]
      ring
  cases st with
  | mk d s =>
      simp only [ExecState.mk.injEq]
      exact ⟨hdone, hso.symm⟩

/-- Main success invariant of run_higher_dimensional: with a kernel that
never fails, zero stride-pointer offsets on entry, nonnegative extents and a
shape covering the dimensions to walk, the run performs exactly one leaf
invocation per index combination of the enclosing dimensions, enumerated
outside-in lexicographically, each invocation seeing every data pointer
advanced by the sum of index times stride over the enclosing dimensions, and
control returns with the entry state fully restored. -/
theorem runHD_ok (k : Kernel E) (hk : ∀ a b c, k a b c = Except.ok ())
    (shape : List Int) (strides : List (List Int)) (n : Nat)
    (hs : strides.length = n) (hnn : ∀ x ∈ shape, 0 ≤ x) :
    ∀ (ndim : Nat), ∀ (dl : Nat) (st : ExecState),
      st.soff = List.replicate n 0 → st.data.length = n →
      dl + ndim ≤ shape.length →
      runHD k shape strides ndim dl st =
        ((lexIndices (((shape.drop dl).take (ndim - 2)).map Int.toNat)).map
            (invSpec shape strides st ndim dl), st, none) := by
  intro ndim
  induction ndim using Nat.strong_induction_on with
  | _ ndim IH =>
    obtain _ | _ | _ | m := ndim
    case _ =>
      intro dl st hso hd _
      exact runHD_ok_base k hk shape strides n hs 0 dl (by omega) st hso hd
    case _ =>
      intro dl st hso hd _
      exact runHD_ok_base k hk shape strides n hs 1 dl (by omega) st hso hd
    case _ =>
      intro dl st hso hd _
      exact runHD_ok_base k hk shape strides n hs 2 dl (by omega) st hso hd
    case _ =>
      intro dl st hso hd hlen
      have hdlt : dl < shape.length := by omega
      have hbody : ∀ s : ExecState,
          (s.soff = List.replicate n 0 ∧ s.data.length = n) →
          runHD k shape strides (m + 2) (dl + 1) s =
            ((lexIndices (((shape.drop (dl + 1)).take m).map Int.toNat)).map
                (invSpec shape strides s (m + 2) (dl + 1)), s, none) := by
        intro s hP
        exact IH (m + 2) (by omega) (dl + 1) s hP.1 hP.2 (by omega)
      have hadv : ∀ s : ExecState,
          (s.soff = List.replicate n 0 ∧ s.data.length = n) →
          ((advanceData strides dl s).soff = List.replicate n 0 ∧
            (advanceData strides dl s).data.length = n) := by
        intro s hP
        refine ⟨hP.1, ?_⟩
        have hsoLen : s.soff.length = n := by rw [hP.1, List.length_replicate]
        simp [advanceData, List.length_zipWith, hP.2, hsoLen, hs]
      have hloop := runIters_ok (E := E) (runHD k shape strides (m + 2) (dl + 1))
        (advanceData strides dl)
        (fun s => s.soff = List.replicate n 0 ∧ s.data.length = n)
        (fun s => (lexIndices (((shape.drop (dl + 1)).take m).map Int.toNat)).map
            (invSpec shape strides s (m + 2) (dl + 1)))
        hadv hbody ((shape.getD dl 0).toNat) st ⟨hso, hd⟩
      have hcast : (((shape.getD dl 0).toNat : Nat) : Int) = shape.getD dl 0 := by
        refine Int.toNat_of_nonneg (hnn _ ?_)
        have hgd : shape.getD dl 0 = shape[dl] := by
          exact List.getD_eq_getElem shape 0 hdlt
        rw [hgd]
        exact List.getElem_mem hdlt
      have htrace : ((List.range ((shape.getD dl 0).toNat)).flatMap (fun i =>
            (lexIndices (((shape.drop (dl + 1)).take m).map Int.toNat)).map
              (invSpec shape strides ((advanceData strides dl)^[i] st) (m + 2) (dl + 1)))) =
          (lexIndices (((shape.drop dl).take (m + 3 - 2)).map Int.toNat)).map
            (invSpec shape strides st (m + 3) dl) := by
        have hstep : ∀ i : Nat,
            (lexIndices (((shape.drop (dl + 1)).take m).map Int.toNat)).map
                (invSpec shape strides ((advanceData strides dl)^[i] st) (m + 2) (dl + 1)) =
            (lexIndices (((shape.drop (dl + 1)).take m).map Int.toNat)).map
                (fun ix => invSpec shape strides st (m + 3) dl (i :: ix)) := by
          intro i
          rw [advanceData_iterate strides dl n st hso hd hs i]
          apply List.map_congr_left
          intro ix _
          unfold invSpec
          simp only [Inv.mk.injEq]
          refine ⟨?_, ?_, ?_⟩
          · have h1 : dl + 1 + (m + 2 - 2) = dl + (m + 3 - 2) := by omega
            rw [h1]
          · rw [zipWith_self_right]
            apply zipWith_ext
            intro a b
            simp only [dotStrideAt]
            ring
          · have h1 : dl + 1 + (m + 2 - 2) = dl + (m + 3 - 2) := by omega
            rw [h1]
        have hfun : (fun i => (lexIndices (((shape.drop (dl + 1)).take m).map Int.toNat)).map
                (invSpec shape strides ((advanceData strides dl)^[i] st) (m + 2) (dl + 1))) =
            (fun i => (lexIndices (((shape.drop (dl + 1)).take m).map Int.toNat)).map
                (fun ix => invSpec shape strides st (m + 3) dl (i :: ix))) :=
          funext hstep
        rw [hfun]
        rw [List.drop_eq_getElem_cons hdlt]
        have h32 : m + 3 - 2 = m + 1 := by omega
        rw [h32, List.take_succ_cons, List.map_cons]
        simp only [lexIndices, List.map_flatMap]
        have hgd : shape.getD dl 0 = shape[dl] := by
          exact List.getD_eq_getElem shape 0 hdlt
        rw [hgd]
        congr 1
        funext i
        rw [List.map_map]
        rfl
      have hstate : rewindData shape strides dl
          ((advanceData strides dl)^[(shape.getD dl 0).toNat] st) = st :=
        rewind_iterate shape strides dl n st hso hd hs hnn hdlt
      simp only [runHD]
      rw [hloop]
      change (_, rewindData _ _ _ _, _) = _
      rw [htrace, hstate]

end ExecutorSuccess

section ExecutorFailure

variable {E : Type}

/-- Closed form of the base case for an arbitrary kernel outcome, entered
with zero stride-pointer offsets: on success the entry state is restored, on
failure the stride-pointer offsets are left at dim_level. -/
theorem runBase_eq (k : Kernel E) (shape : List Int)
    (strides : List (List Int)) (n : Nat) (hs : strides.length = n)
    (dl : Nat) (st : ExecState) (hso : st.soff = List.replicate n 0) :
    runBase k shape strides st dl =
      match k (shape.drop dl) st.data (strides.map (fun sj => sj.drop dl)) with
      | Except.ok _ =>
          ([{ shape := shape.drop dl, data := st.data,
              strides := strides.map (fun sj => sj.drop dl) }], st, none)
      | Except.error e =>
          ([{ shape := shape.drop dl, data := st.data,
              strides := strides.map (fun sj => sj.drop dl) }],
            { data := st.data, soff := List.replicate n dl }, some e) := by
  have h1 : (if dl = 0 then st.soff else st.soff.map (fun o => o + dl)) =
      List.replicate n dl := by
    split
    · simp_all
    · rw [hso, List.map_replicate]; simp
  have h2 : List.zipWith (fun (sj : List Int) (o : Nat) => sj.drop o) strides
      (List.replicate n dl) = strides.map (fun sj => sj.drop dl) :=
    zipWith_replicate_right _ _ strides n hs
  have h3 : (if dl = 0 then List.replicate n dl
      else (List.replicate n dl).map (fun o => o - dl)) = st.soff := by
    split
    · simp_all
    · rw [List.map_replicate, hso]; simp
  unfold runBase
  simp only [h1, h2, h3]

/-- A successful base case restores the state it was entered with. -/
theorem runBase_state_ok (k : Kernel E) (shape : List Int)
    (strides : List (List Int)) (n : Nat) (hs : strides.length = n)
    (dl : Nat) (st : ExecState) (hso : st.soff = List.replicate n 0) :
    ∀ tr s', runBase k shape strides st dl = (tr, s', none) → s' = st := by
  intro tr s' heq
  rw [runBase_eq k shape strides n hs dl st hso] at heq
  rcases hkk : k (shape.drop dl) st.data (strides.map (fun sj => sj.drop dl)) with e' | u
  · rw [hkk] at heq
    simp only [Prod.mk.injEq] at heq
    exact absurd heq.2.2 (by simp)
  · rw [hkk] at heq
    simp only [Prod.mk.injEq] at heq
    exact heq.2.1.symm

/-- A failing base case leaves the stride pointers offset by dim_level (the
restore step is skipped on the error path) and returns the kernel's error. -/
theorem runBase_error (k : Kernel E) (shape : List Int)
    (strides : List (List Int)) (n : Nat) (hs : strides.length = n)
    (dl : Nat) (st : ExecState) (hso : st.soff = List.replicate n 0) :
    ∀ tr s' e, runBase k shape strides st dl = (tr, s', some e) →
      ∃ h : tr ≠ [],
        k (tr.getLast h).shape (tr.getLast h).data (tr.getLast h).strides =
            Except.error e ∧
        s'.data = (tr.getLast h).data ∧
        s'.soff = List.replicate n dl := by
  intro tr s' e heq
  rw [runBase_eq k shape strides n hs dl st hso] at heq
  rcases hkk : k (shape.drop dl) st.data (strides.map (fun sj => sj.drop dl)) with e' | u
  · rw [hkk] at heq
    simp only [Prod.mk.injEq] at heq
    obtain ⟨htr, hstq, he⟩ := heq
    have he2 : e' = e := by simpa using he
    subst he2
    subst htr
    subst hstq
    refine ⟨by simp, ?_, ?_, ?_⟩
    · simpa only [List.getLast_singleton] using hkk
    · simp [List.getLast_singleton]
    · rfl
  · rw [hkk] at heq
    simp only [Prod.mk.injEq] at heq
    exact absurd heq.2.2 (by simp)

/-- If the loop of the recursive case completes with no error, its final
state is the count-fold advance of the entry state (every iteration restored
its own entry state before the advance). -/
theorem runIters_state (body : ExecState → RunOut E) (adv : ExecState → ExecState)
    (P : ExecState → Prop)
    (hadv : ∀ st, P st → P (adv st))
    (hstate : ∀ st, P st → ∀ tr s', body st = (tr, s', none) → s' = st) :
    ∀ cnt st, P st → ∀ tr s',
      runIters body adv cnt st = (tr, s', none) → s' = adv^[cnt] st := by
  intro cnt
  induction cnt with
  | zero =>
      intro st _ tr s' heq
      simp only [runIters, Prod.mk.injEq] at heq
      rw [← heq.2.1, Function.iterate_zero_apply]
  | succ m ih =>
      intro st hP tr s' heq
      rcases hb : body st with ⟨tb, sb, ob⟩
      rcases ob with _ | eb
      · have hsb : sb = st := hstate st hP tb sb hb
        rcases hrest : runIters body adv m (adv sb) with ⟨tr2, s2, o2⟩
        have heq2 : runIters body adv (m + 1) st = (tb ++ tr2, s2, o2) := by
          rw [runIters, hb]
          dsimp only
          rw [hrest]
        rw [heq2] at heq
        simp only [Prod.mk.injEq] at heq
        rcases o2 with _ | e2
        · have h2 : s2 = adv^[m] (adv sb) :=
            ih (adv sb) (hsb ▸ hadv st hP) tr2 s2 hrest
          rw [← heq.2.1, h2, hsb, Function.iterate_succ_apply]
        · exact absurd heq.2.2 (by simp)
      · have heq2 : runIters body adv (m + 1) st = (tb, sb, some eb) := by
          rw [runIters, hb]
        rw [heq2] at heq
        simp only [Prod.mk.injEq] at heq
        exact absurd heq.2.2 (by simp)

/-- If the loop of the recursive case stops with an error, any trace-suffix
postcondition established by the failing iteration holds of the whole loop:
the loop's trace is the completed iterations' traces followed by the failing
iteration's trace, and its final state and error are the failing
iteration's. -/
theorem runIters_error (body : ExecState → RunOut E) (adv : ExecState → ExecState)
    (P : ExecState → Prop) (Q : List Inv → ExecState → E → Prop)
    (hadv : ∀ st, P st → P (adv st))
    (hstate : ∀ st, P st → ∀ tr s', body st = (tr, s', none) → s' = st)
    (hberr : ∀ st, P st → ∀ tr s' e, body st = (tr, s', some e) → Q tr s' e)
    (hpre : ∀ tr1 tr2 s' e, Q tr2 s' e → Q (tr1 ++ tr2) s' e) :
    ∀ cnt st, P st → ∀ tr s' e,
      runIters body adv cnt st = (tr, s', some e) → Q tr s' e := by
  intro cnt
  induction cnt with
  | zero =>
      intro st _ tr s' e heq
      simp only [runIters, Prod.mk.injEq] at heq
      exact absurd heq.2.2 (by simp)
  | succ m ih =>
      intro st hP tr s' e heq
      rcases hb : body st with ⟨tb, sb, ob⟩
      rcases ob with _ | eb
      · have hsb : sb = st := hstate st hP tb sb hb
        rcases hrest : runIters body adv m (adv sb) with ⟨tr2, s2, o2⟩
        have heq2 : runIters body adv (m + 1) st = (tb ++ tr2, s2, o2) := by
          rw [runIters, hb]
          dsimp only
          rw [hrest]
        rw [heq2] at heq
        simp only [Prod.mk.injEq] at heq
        rcases o2 with _ | e2
        · exact absurd heq.2.2 (by simp)
        · have hQ : Q tr2 s2 e2 := ih (adv sb) (hsb ▸ hadv st hP) tr2 s2 e2 hrest
          obtain ⟨h1, h2, h3⟩ := heq
          have he : e2 = e := by simpa using h3
          rw [← h1, ← h2]
          exact hpre tb tr2 s2 e (he ▸ hQ)
      · have heq2 : runIters body adv (m + 1) st = (tb, sb, some eb) := by
          rw [runIters, hb]
        rw [heq2] at heq
        simp only [Prod.mk.injEq] at heq
        obtain ⟨h1, h2, h3⟩ := heq
        have he : eb = e := by simpa using h3
        rw [← h1, ← h2]
        exact hberr st hP tb sb e (by rw [← he]; exact hb)

/-- With an arbitrary kernel, a run that returns without error restores the
entry pointer state. -/
theorem runHD_state_ok (k : Kernel E) (shape : List Int)
    (strides : List (List Int)) (n : Nat) (hs : strides.length = n)
    (hnn : ∀ x ∈ shape, 0 ≤ x) :
    ∀ (ndim : Nat), ∀ (dl : Nat) (st : ExecState),
      st.soff = List.replicate n 0 → st.data.length = n →
      dl + ndim ≤ shape.length →
      ∀ tr s', runHD k shape strides ndim dl st = (tr, s', none) → s' = st := by
  intro ndim
  induction ndim using Nat.strong_induction_on with
  | _ ndim IH =>
    obtain _ | _ | _ | m := ndim
    case _ =>
      intro dl st hso _ _ tr s' heq
      exact runBase_state_ok k shape strides n hs dl st hso tr s' heq
    case _ =>
      intro dl st hso _ _ tr s' heq
      exact runBase_state_ok k shape strides n hs dl st hso tr s' heq
    case _ =>
      intro dl st hso _ _ tr s' heq
      exact runBase_state_ok k shape strides n hs dl st hso tr s' heq
    case _ =>
      intro dl st hso hd hlen tr s' heq
      have hdlt : dl < shape.length := by omega
      have hadv : ∀ s : ExecState,
          (s.soff = List.replicate n 0 ∧ s.data.length = n) →
          ((advanceData strides dl s).soff = List.replicate n 0 ∧
            (advanceData strides dl s).data.length = n) := by
        intro s hP
        refine ⟨hP.1, ?_⟩
        have hsoLen : s.soff.length = n := by rw [hP.1, List.length_replicate]
        simp [advanceData, List.length_zipWith, hP.2, hsoLen, hs]
      have hbody : ∀ s : ExecState,
          (s.soff = List.replicate n 0 ∧ s.data.length = n) →
          ∀ tb sb, runHD k shape strides (m + 2) (dl + 1) s = (tb, sb, none) →
            sb = s := by
        intro s hP tb sb h
        exact IH (m + 2) (by omega) (dl + 1) s hP.1 hP.2 (by omega) tb sb h
      rcases hout : runIters (runHD k shape strides (m + 2) (dl + 1))
          (advanceData strides dl) ((shape.getD dl 0).toNat) st with ⟨tr1, s1, o1⟩
      rcases o1 with _ | e1
      · have heq2 : runHD k shape strides (m + 3) dl st =
            (tr1, rewindData shape strides dl s1, none) := by
          simp only [runHD]
          rw [hout]
        rw [heq2] at heq
        simp only [Prod.mk.injEq] at heq
        have hs1 : s1 = (advanceData strides dl)^[(shape.getD dl 0).toNat] st :=
          runIters_state (runHD k shape strides (m + 2) (dl + 1))
            (advanceData strides dl)
            (fun s => s.soff = List.replicate n 0 ∧ s.data.length = n)
            hadv hbody ((shape.getD dl 0).toNat) st ⟨hso, hd⟩ tr1 s1 hout
        rw [← heq.2.1, hs1]
        exact rewind_iterate shape strides dl n st hso hd hs hnn hdlt
      · have heq2 : runHD k shape strides (m + 3) dl st = (tr1, s1, some e1) := by
          simp only [runHD]
          rw [hout]
        rw [heq2] at heq
        simp only [Prod.mk.injEq] at heq
        exact absurd heq.2.2 (by simp)

/-- With an arbitrary kernel, a run that propagates an error returns exactly
the error of the last (failing) leaf invocation, leaves the data pointers
where that invocation saw them, and leaves every stride pointer offset by
the base-case dim_level (the rewind steps do not run on the error path). -/
theorem runHD_error (k : Kernel E) (shape : List Int)
    (strides : List (List Int)) (n : Nat) (hs : strides.length = n)
    (hnn : ∀ x ∈ shape, 0 ≤ x) :
    ∀ (ndim : Nat), ∀ (dl : Nat) (st : ExecState),
      st.soff = List.replicate n 0 → st.data.length = n →
      dl + ndim ≤ shape.length →
      ∀ tr s' e, runHD k shape strides ndim dl st = (tr, s', some e) →
        ∃ h : tr ≠ [],
          k (tr.getLast h).shape (tr.getLast h).data (tr.getLast h).strides =
              Except.error e ∧
          s'.data = (tr.getLast h).data ∧
          s'.soff = List.replicate n (dl + (ndim - 2)) := by
  intro ndim
  induction ndim using Nat.strong_induction_on with
  | _ ndim IH =>
    obtain _ | _ | _ | m := ndim
    case _ =>
      intro dl st hso _ _ tr s' e heq
      exact runBase_error k shape strides n hs dl st hso tr s' e heq
    case _ =>
      intro dl st hso _ _ tr s' e heq
      exact runBase_error k shape strides n hs dl st hso tr s' e heq
    case _ =>
      intro dl st hso _ _ tr s' e heq
      exact runBase_error k shape strides n hs dl st hso tr s' e heq
    case _ =>
      intro dl st hso hd hlen tr s' e heq
      have hadv : ∀ s : ExecState,
          (s.soff = List.replicate n 0 ∧ s.data.length = n) →
          ((advanceData strides dl s).soff = List.replicate n 0 ∧
            (advanceData strides dl s).data.length = n) := by
        intro s hP
        refine ⟨hP.1, ?_⟩
        have hsoLen : s.soff.length = n := by rw [hP.1, List.length_replicate]
        simp [advanceData, List.length_zipWith, hP.2, hsoLen, hs]
      have hbody : ∀ s : ExecState,
          (s.soff = List.replicate n 0 ∧ s.data.length = n) →
          ∀ tb sb, runHD k shape strides (m + 2) (dl + 1) s = (tb, sb, none) →
            sb = s := by
        intro s hP tb sb h
        exact runHD_state_ok k shape strides n hs hnn (m + 2) (dl + 1) s
          hP.1 hP.2 (by omega) tb sb h
      have hberr : ∀ s : ExecState,
          (s.soff = List.replicate n 0 ∧ s.data.length = n) →
          ∀ tb sb eb, runHD k shape strides (m + 2) (dl + 1) s = (tb, sb, some eb) →
            ∃ h : tb ≠ [],
              k (tb.getLast h).shape (tb.getLast h).data (tb.getLast h).strides =
                  Except.error eb ∧
              sb.data = (tb.getLast h).data ∧
              sb.soff = List.replicate n (dl + (m + 3 - 2)) := by
        intro s hP tb sb eb h
        have hres := IH (m + 2) (by omega) (dl + 1) s hP.1 hP.2 (by omega) tb sb eb h
        have harith : dl + 1 + (m + 2 - 2) = dl + (m + 3 - 2) := by omega
        rw [harith] at hres
        exact hres
      rcases hout : runIters (runHD k shape strides (m + 2) (dl + 1))
          (advanceData strides dl) ((shape.getD dl 0).toNat) st with ⟨tr1, s1, o1⟩
      rcases o1 with _ | e1
      · have heq2 : runHD k shape strides (m + 3) dl st =
            (tr1, rewindData shape strides dl s1, none) := by
          simp only [runHD]
          rw [hout]
        rw [heq2] at heq
        simp only [Prod.mk.injEq] at heq
        exact absurd heq.2.2 (by simp)
      · have heq2 : runHD k shape strides (m + 3) dl st = (tr1, s1, some e1) := by
          simp only [runHD]
          rw [hout]
        rw [heq2] at heq
        simp only [Prod.mk.injEq] at heq
        obtain ⟨h1, h2, h3⟩ := heq
        have he : e1 = e := by simpa using h3
        subst he
        subst h1
        subst h2
        refine runIters_error (runHD k shape strides (m + 2) (dl + 1))
          (advanceData strides dl)
          (fun s => s.soff = List.replicate n 0 ∧ s.data.length = n)
          (fun tb sb eb =>
            ∃ h : tb ≠ [],
              k (tb.getLast h).shape (tb.getLast h).data (tb.getLast h).strides =
                  Except.error eb ∧
              sb.data = (tb.getLast h).data ∧
              sb.soff = List.replicate n (dl + (m + 3 - 2)))
          hadv hbody hberr ?_ ((shape.getD dl 0).toNat) st ⟨hso, hd⟩ tr1 s1 e1 hout
        intro ta tb sb eb hQ
        obtain ⟨h2, hk2, hd2, hs2⟩ := hQ
        have h12 : ta ++ tb ≠ [] := by simp [h2]
        refine ⟨h12, ?_, ?_, hs2⟩
        · rw [List.getLast_append_of_ne_nil h2]
          exact hk2
        · rw [List.getLast_append_of_ne_nil h2]
          exact hd2

end ExecutorFailure

section LexIndices

/-- An index vector is enumerated exactly when it is pointwise below the
extents. -/
theorem mem_lexIndices (exts : List Nat) (ix : List Nat) :
    ix ∈ lexIndices exts ↔ List.Forall₂ (fun i e => i < e) ix exts := by
  induction exts generalizing ix with
  | nil =>
      simp only [lexIndices, List.mem_singleton]
      constructor
      · intro h; subst h; exact List.Forall₂.nil
      · intro h; cases h; rfl
  | cons n rest ih =>
      simp only [lexIndices, List.mem_flatMap, List.mem_map, List.mem_range]
      constructor
      · rintro ⟨i, hi, ix', hix', rfl⟩
        exact List.Forall₂.cons hi ((ih ix').mp hix')
      · intro h
        cases h with
        | cons hab h' => exact ⟨_, hab, _, (ih _).mpr h', rfl⟩

/-- The enumeration never repeats an index vector. -/
theorem lexIndices_nodup (exts : List Nat) : (lexIndices exts).Nodup := by
  induction exts with
  | nil => simp [lexIndices]
  | cons n rest ih =>
      simp only [lexIndices]
      rw [List.nodup_flatMap]
      constructor
      · intro i _
        exact ih.map (fun a b hab => by simpa using hab)
      · refine (List.pairwise_lt_range n).imp ?_
        intro i j hij
        intro x hxi hxj
        simp only [List.mem_map] at hxi hxj
        obtain ⟨ix1, _, h1⟩ := hxi
        obtain ⟨ix2, _, h2⟩ := hxj
        rw [← h1] at h2
        have : i = j := by
          have h3 := congrArg (fun l : List Nat => l.headD 0) h2
          simpa using h3.symm
        omega

end LexIndices

section CollapseLemmas

/-- The in-place multiply loop over a list of positive indices computes, at
entry 0, the original entry 0 times the product of the entries at those
indices, and touches nothing else. -/
theorem collapseLoop_spec : ∀ (ks : List Nat) (s : List Int),
    (∀ i ∈ ks, 0 < i) → 0 < s.length →
    collapseLoop s ks = s.set 0 (s.getD 0 0 * (ks.map (fun i => s.getD i 0)).prod) := by
  intro ks
  induction ks with
  | nil =>
      intro s _ hlen
      cases s with
      | nil => simp at hlen
      | cons a t => simp [collapseLoop, List.getD]
  | cons i ks ih =>
      intro s hpos hlen
      have hi : 0 < i := hpos i (by simp)
      rw [collapseLoop]
      rw [ih _ (fun j hj => hpos j (by simp [hj])) (by simpa using hlen)]
      have hg0 : (s.set 0 (s.getD 0 0 * s.getD i 0)).getD 0 0 =
          s.getD 0 0 * s.getD i 0 := by
        rw [List.getD_eq_getElem _ 0 (by simpa using hlen)]
        exact List.getElem_set_self _
      have hgj : ∀ j : Nat, j ≠ 0 →
          (s.set 0 (s.getD 0 0 * s.getD i 0)).getD j 0 = s.getD j 0 := by
        intro j hj
        simp [List.getD_eq_getElem?_getD,
          List.getElem?_set_ne (show (0 : Nat) ≠ j from fun hh => hj hh.symm)]
      rw [List.set_set, hg0]
      have hmap : ks.map (fun j => (s.set 0 (s.getD 0 0 * s.getD i 0)).getD j 0) =
          ks.map (fun j => s.getD j 0) := by
        apply List.map_congr_left
        intro j hj
        exact hgj j (by have := hpos j (by simp [hj]); omega)
      rw [hmap, List.map_cons, List.prod_cons, mul_assoc]

/-- Reading a list through a run of consecutive indices is the corresponding
drop-take slice. -/
theorem map_getD_range' : ∀ (k a : Nat) (s : List Int), a + k ≤ s.length →
    (List.range' a k).map (fun i => s.getD i 0) = (s.drop a).take k := by
  intro k
  induction k with
  | zero => intro a s _; simp
  | succ m ih =>
      intro a s hlen
      have ha : a < s.length := by omega
      rw [List.range'_succ a m 1, List.map_cons, ih (a + 1) s (by omega)]
      rw [List.drop_eq_getElem_cons ha, List.take_succ_cons]
      rw [List.getD_eq_getElem s 0 ha]

/-- The number of enumerated index combinations is the product of the
extents. -/
theorem lexIndices_length (exts : List Nat) :
    (lexIndices exts).length = exts.prod := by
  induction exts with
  | nil => simp [lexIndices]
  | cons n rest ih =>
      simp only [lexIndices, List.length_flatMap]
      have hfun : (List.length ∘ fun i : Nat =>
          List.map (fun ix => i :: ix) (lexIndices rest)) =
          fun _ : Nat => rest.prod := by
        funext i
        simp [ih]
      rw [hfun, List.map_const', List.sum_replicate, List.length_range,
        smul_eq_mul, List.prod_cons]

/-- Closed form of the collapse branch: entry 0 becomes the original entry 0
times the product of the extents at indices 3 through ndim - 1. -/
theorem runUFuncShape_eq_set (ndim : Nat) (shape : List Int) (h3 : 3 < ndim)
    (hlen : ndim ≤ shape.length) :
    runUFuncShape true ndim shape =
      shape.set 0 (shape.getD 0 0 * ((shape.drop 3).take (ndim - 3)).prod) := by
  rw [runUFuncShape, if_pos (by simp [h3])]
  rw [collapseLoop_spec (List.range' 3 (ndim - 3)) shape ?_ (by omega)]
  · rw [map_getD_range' (ndim - 3) 3 shape (by omega)]
  · intro i hi
    rw [List.mem_range'_1] at hi
    omega

end CollapseLemmas

section BroadcastLemmas

/-- Reading the tail shifts the index by one. -/
theorem getD_tail (s : List Nat) (d dfl : Nat) :
    s.tail.getD d dfl = s.getD (d + 1) dfl := by
  cases s with
  | nil => simp
  | cons x xs => rfl

/-- The head with default 1 is the read at index 0 with default 1. -/
theorem headD_eq_getD (s : List Nat) : s.headD 1 = s.getD 0 1 := by
  cases s with
  | nil => rfl
  | cons x xs => rfl

/-- A padding extent 1 does not change the planned extent of a dimension. -/
theorem planDim_cons_one (xs : List Nat) : planDim (1 :: xs) = planDim xs := by
  simp [planDim]

/-- The planned extent of a single-operand dimension is that operand's
extent. -/
theorem planDim_single (x : Nat) : planDim [x] = some x := by
  by_cases h : x = 1 <;> simp [planDim, h]

/-- Merging two extents that broadcast pairwise does not change the planned
extent of the dimension. -/
theorem planDim_merge (a b c : Nat) (h : bcastDim a b = some c) (xs : List Nat) :
    planDim (a :: b :: xs) = planDim (c :: xs) := by
  unfold bcastDim at h
  split_ifs at h with h1 h2 h3 <;> injection h with h4 <;> subst h4
  · subst h1
    by_cases ha : a = 1
    · subst ha; simp [planDim]
    · simp [planDim, ha]
  · subst h2
    simp [planDim]
  · subst h3
    simp [planDim, h2]

/-- Two extents that do not broadcast pairwise make the dimension fail. -/
theorem planDim_conflict (a b : Nat) (h : bcastDim a b = none) (xs : List Nat) :
    planDim (a :: b :: xs) = none := by
  unfold bcastDim at h
  split_ifs at h with h1 h2 h3
  simp only [planDim, List.filter_cons, decide_eq_true_eq]
  rw [if_pos h2, if_pos h3]
  simp only [List.all_cons, decide_eq_true_eq, Bool.and_eq_true]
  rw [if_neg]
  intro hall
  exact h1 (hall.1.symm)

/-- Heads and tails of a successful pairwise broadcast. -/
theorem bcast2R_heads (u s v : List Nat) (h : bcast2R u s = some v) :
    bcastDim (u.headD 1) (s.headD 1) = some (v.headD 1) ∧
    bcast2R u.tail s.tail = some v.tail := by
  cases u with
  | nil =>
      have hv : v = s := Eq.symm (by simpa [bcast2R] using h)
      subst hv
      constructor
      · cases v with
        | nil => rfl
        | cons y ys' => by_cases hy : y = 1 <;> simp [bcastDim, hy]
      · rfl
  | cons x xs =>
      cases s with
      | nil =>
          have hv : v = x :: xs := Eq.symm (by simpa [bcast2R] using h)
          subst hv
          constructor
          · by_cases hx : x = 1 <;> simp [bcastDim, hx]
          · cases xs <;> rfl
      | cons y ys =>
          unfold bcast2R at h
          rcases hbd : bcastDim x y with _ | d <;> rw [hbd] at h
          · simp at h
          · rcases hbr : bcast2R xs ys with _ | rest <;> rw [hbr] at h
            · simp at h
            · have hv : v = d :: rest := by simpa using h.symm
              subst hv
              exact ⟨hbd, hbr⟩

/-- A failing pairwise broadcast fails at the head or in the tails. -/
theorem bcast2R_conflict (x y : Nat) (xs ys : List Nat)
    (h : bcast2R (x :: xs) (y :: ys) = none) :
    bcastDim x y = none ∨ bcast2R xs ys = none := by
  unfold bcast2R at h
  rcases hbd : bcastDim x y with _ | d <;> rw [hbd] at h
  · exact Or.inl rfl
  · rcases hbr : bcast2R xs ys with _ | rest <;> rw [hbr] at h
    · exact Or.inr rfl
    · simp at h

/-- The pairwise broadcast of two shapes has the length of the longer one. -/
theorem bcast2R_length : ∀ (u s v : List Nat), bcast2R u s = some v →
    v.length = max u.length s.length := by
  intro u
  induction u with
  | nil =>
      intro s v h
      have hv : v = s := Eq.symm (by simpa [bcast2R] using h)
      subst hv
      simp
  | cons x xs ih =>
      intro s v h
      cases s with
      | nil =>
          have hv : v = x :: xs := Eq.symm (by simpa [bcast2R] using h)
          subst hv
          simp
      | cons y ys =>
          unfold bcast2R at h
          rcases hbd : bcastDim x y with _ | d <;> rw [hbd] at h
          · simp at h
          · rcases hbr : bcast2R xs ys with _ | rest <;> rw [hbr] at h
            · simp at h
            · have hv : v = d :: rest := by simpa using h.symm
              subst hv
              simp only [List.length_cons, ih ys rest hbr]
              omega

/-- Merging two operands that broadcast pairwise does not change the
planner's unified shape. -/
theorem planAux_merge : ∀ (k : Nat) (u s v : List Nat) (rest : List (List Nat)),
    bcast2R u s = some v →
    planUnifiedAux k (u :: s :: rest) = planUnifiedAux k (v :: rest) := by
  intro k
  induction k with
  | zero => intros; rfl
  | succ d ih =>
      intro u s v rest h
      obtain ⟨hh, ht⟩ := bcast2R_heads u s v h
      simp only [planUnifiedAux, List.map_cons]
      rw [planDim_merge _ _ _ hh]
      rw [ih u.tail s.tail v.tail (rest.map List.tail) ht]

/-- Two operands that do not broadcast pairwise make the planner fail, as
long as the dimension budget covers the first operand. -/
theorem planAux_conflict_pair : ∀ (u : List Nat) (k : Nat) (s : List Nat)
    (rest : List (List Nat)),
    bcast2R u s = none → u.length ≤ k →
    planUnifiedAux k (u :: s :: rest) = none := by
  intro u
  induction u with
  | nil =>
      intro k s rest h _
      simp [bcast2R] at h
  | cons x xs ih =>
      intro k s rest h hk
      cases s with
      | nil => simp [bcast2R] at h
      | cons y ys =>
          cases k with
          | zero => simp at hk
          | succ d =>
              rcases bcast2R_conflict x y xs ys h with hbd | hbr
              · simp only [planUnifiedAux, List.map_cons]
                rw [show ((x :: xs).headD 1) = x from rfl,
                  show ((y :: ys).headD 1) = y from rfl,
                  planDim_conflict x y hbd]
              · simp only [planUnifiedAux, List.map_cons]
                rw [show ((x :: xs).headD 1) = x from rfl,
                  show ((y :: ys).headD 1) = y from rfl,
                  show (x :: xs).tail = xs from rfl,
                  show (y :: ys).tail = ys from rfl,
                  ih d ys (rest.map List.tail) hbr (by simpa using hk)]
                cases hpd : planDim (x :: y :: List.map (fun s => s.headD 1) rest) <;> rfl

/-- The planner on a single operand returns that operand's shape. -/
theorem planAux_single : ∀ (u : List Nat), planUnifiedAux u.length [u] = some u := by
  intro u
  induction u with
  | nil => rfl
  | cons x xs ih =>
      simp only [planUnifiedAux, List.map_cons, List.map_nil]
      rw [show ((x :: xs).headD 1) = x from rfl, planDim_single x,
        show (x :: xs).tail = xs from rfl, ih]

/-- A zero-dimensional participant does not affect the planner. -/
theorem planAux_nil_cons : ∀ (k : Nat) (rest : List (List Nat)),
    planUnifiedAux k ([] :: rest) = planUnifiedAux k rest := by
  intro k
  induction k with
  | zero => intros; rfl
  | succ d ih =>
      intro rest
      simp only [planUnifiedAux, List.map_cons]
      rw [show (([] : List Nat).headD 1) = 1 from rfl, planDim_cons_one,
        show ([] : List Nat).tail = [] from rfl, ih]

/-- Every participant's dimension count is within the planner's budget. -/
theorem length_le_maxLen : ∀ (shapes : List (List Nat)) (s : List Nat),
    s ∈ shapes → s.length ≤ maxLen shapes := by
  intro shapes
  induction shapes with
  | nil => intro s h; simp at h
  | cons t rest ih =>
      intro s h
      rcases List.mem_cons.mp h with h | h
      · subst h; simp [maxLen]
      · have := ih s h
        simp only [maxLen, List.foldr_cons] at *
        omega

/-- An exhausted accumulator keeps the fold failing. -/
theorem foldl_bcast_none : ∀ (shapes : List (List Nat)),
    shapes.foldl (fun acc s => acc.bind (fun w => bcast2R w s)) none = none := by
  intro shapes
  induction shapes with
  | nil => rfl
  | cons s rest ih => simpa using ih

/-- The fold of pairwise broadcasts from an accumulator shape equals the
joint per-dimension rule on the accumulator and the remaining shapes. -/
theorem foldl_bcast_eq_planAux : ∀ (shapes : List (List Nat)) (u : List Nat),
    shapes.foldl (fun acc s => acc.bind (fun w => bcast2R w s)) (some u) =
      planUnifiedAux (maxLen (u :: shapes)) (u :: shapes) := by
  intro shapes
  induction shapes with
  | nil =>
      intro u
      simp only [List.foldl_nil]
      rw [show maxLen [u] = u.length from by simp [maxLen]]
      exact (planAux_single u).symm
  | cons s rest ih =>
      intro u
      simp only [List.foldl_cons]
      rw [show ((some u).bind fun w => bcast2R w s) = bcast2R u s from rfl]
      rcases hv : bcast2R u s with _ | v
      · rw [foldl_bcast_none]
        refine (planAux_conflict_pair u _ s rest hv ?_).symm
        have : u.length ≤ maxLen (u :: s :: rest) := by simp [maxLen]
        exact this
      · rw [ih v]
        have hlen : v.length = max u.length s.length := bcast2R_length u s v hv
        have hml : maxLen (v :: rest) = maxLen (u :: s :: rest) := by
          simp only [maxLen, List.foldr_cons, hlen]
          omega
        rw [hml]
        exact (planAux_merge _ u s v rest hv).symm

/-- Refinement: the Broadcast Planner's unified shape (spec 4.1, joint
per-dimension rule) equals the standard NumPy broadcasting result (pairwise
fold, as np.broadcast computes it). -/
theorem planUnified_eq_npBroadcast (shapes : List (List Nat)) :
    planUnified shapes = npBroadcastShapes shapes := by
  unfold planUnified npBroadcastShapes npBroadcastShapesR
  rw [foldl_bcast_eq_planAux (shapes.map List.reverse) []]
  rw [planAux_nil_cons]
  rw [show maxLen ([] :: shapes.map List.reverse) = maxLen (shapes.map List.reverse)
    from by simp [maxLen]]

/-- Reading a three-way zip at an in-range index reads the three lists. -/
theorem zipWith3_getD (f : Nat → Nat → Int → Int) :
    ∀ (as bs : List Nat) (cs : List Int) (i : Nat),
    as.length = bs.length → as.length = cs.length → i < as.length →
    (List.zipWith3 f as bs cs).getD i 0 =
      f (as.getD i 1) (bs.getD i 1) (cs.getD i 0) := by
  intro as
  induction as with
  | nil => intro bs cs i _ _ hi; simp at hi
  | cons a as ih =>
      intro bs cs i hb hc hi
      cases bs with
      | nil => simp at hb
      | cons b bs =>
          cases cs with
          | nil => simp at hc
          | cons c cs =>
              cases i with
              | zero => rfl
              | succ j =>
                  have := ih bs cs j (by simpa using hb) (by simpa using hc)
                    (by simpa using hi)
                  simpa [List.zipWith3] using this

/-- Reading past a drop reads the original at the shifted index. -/
theorem getD_drop_nat (u : List Nat) (p j dfl : Nat) :
    (u.drop p).getD j dfl = u.getD (p + j) dfl := by
  simp [List.getD_eq_getElem?_getD, List.getElem?_drop]

/-- Reading a replicate of v always yields v. -/
theorem getD_replicate (n i : Nat) (v : Int) :
    (List.replicate n v).getD i v = v := by
  rcases Nat.lt_or_ge i n with h | h
  · rw [List.getD_eq_getElem _ _ (by simpa using h)]
    exact List.getElem_replicate _ _
  · exact List.getD_eq_default _ _ (by simpa using h)

/-- Per-dimension reading of the planned stride vector: 0 in the padding, 0
where extent 1 meets a greater unified extent, the declared stride
elsewhere. -/
theorem plannedStrides_getD (u : List Nat) (a : Arr)
    (hle : a.shape.length ≤ u.length)
    (hstr : a.strides.length = a.shape.length) (d : Nat) (hd : d < u.length) :
    (plannedStrides u a).getD d 0 =
      if d < u.length - a.shape.length then 0
      else if a.shape.getD (d - (u.length - a.shape.length)) 1 = 1 ∧
          1 < u.getD d 1 then 0
      else a.strides.getD (d - (u.length - a.shape.length)) 0 := by
  unfold plannedStrides
  rcases Nat.lt_or_ge d (u.length - a.shape.length) with hdp | hdp
  · rw [List.getD_append _ _ 0 d (by simpa using hdp)]
    rw [if_pos hdp]
    exact getD_replicate _ _ 0
  · rw [List.getD_append_right _ _ 0 d (by simpa using hdp), if_neg (by omega)]
    rw [List.length_replicate]
    have hdrop : (u.drop (u.length - a.shape.length)).length = a.shape.length := by
      simp [List.length_drop]
      omega
    rw [zipWith3_getD _ a.shape (u.drop (u.length - a.shape.length)) a.strides
      (d - (u.length - a.shape.length)) hdrop.symm hstr.symm (by omega)]
    rw [getD_drop_nat]
    have harith : u.length - a.shape.length + (d - (u.length - a.shape.length)) = d := by
      omega
    rw [harith]

/-- A planned dimension fails when the list holds two distinct non-1
extents. -/
theorem planDim_none_of (xs : List Nat) (a b : Nat) (ha : a ∈ xs) (hb : b ∈ xs)
    (ha1 : a ≠ 1) (hb1 : b ≠ 1) (hab : a ≠ b) : planDim xs = none := by
  unfold planDim
  rcases hf : xs.filter (fun x => decide (x ≠ 1)) with _ | ⟨e, rest'⟩
  · exfalso
    have hmem : a ∈ xs.filter (fun x => decide (x ≠ 1)) :=
      List.mem_filter.mpr ⟨ha, by simpa using ha1⟩
    rw [hf] at hmem
    simp at hmem
  · by_cases hall : rest'.all (fun x => decide (x = e)) = true
    · exfalso
      have hmem : ∀ x ∈ xs.filter (fun y => decide (y ≠ 1)), x = e := by
        rw [hf]
        intro x hx
        rcases List.mem_cons.mp hx with h | h
        · exact h
        · have := (List.all_eq_true.mp hall) x h
          simpa using this
      have hae : a = e := hmem a (List.mem_filter.mpr ⟨ha, by simpa using ha1⟩)
      have hbe : b = e := hmem b (List.mem_filter.mpr ⟨hb, by simpa using hb1⟩)
      exact hab (hae.trans hbe.symm)
    · change (if (rest'.all fun x => decide (x = e)) = true then some e else none) =
        none
      rw [if_neg hall]

/-- A planned dimension succeeds when all pairs of extents are compatible. -/
theorem planDim_some_of_compat (xs : List Nat)
    (h : ∀ a ∈ xs, ∀ b ∈ xs, a = 1 ∨ b = 1 ∨ a = b) : (planDim xs).isSome := by
  unfold planDim
  rcases hf : xs.filter (fun x => decide (x ≠ 1)) with _ | ⟨e, rest'⟩
  · simp
  · have hef : e ∈ xs.filter (fun x => decide (x ≠ 1)) := by rw [hf]; simp
    obtain ⟨hee, he1⟩ := List.mem_filter.mp hef
    change (if (rest'.all fun x => decide (x = e)) = true then some e
      else none).isSome = true
    rw [if_pos ?_]
    · simp
    · rw [List.all_eq_true]
      intro x hx
      have hxf : x ∈ xs.filter (fun y => decide (y ≠ 1)) := by rw [hf]; simp [hx]
      obtain ⟨hxx, hx1⟩ := List.mem_filter.mp hxf
      rcases h x hxx e hee with h1 | h1 | h1
      · simp at hx1; exact absurd h1 hx1
      · simp at he1; exact absurd h1 he1
      · simpa using h1

/-- Two participants with distinct non-1 extents at a common trailing-aligned
dimension make the planner fail. -/
theorem planAux_conflict : ∀ (d k : Nat) (shapesR : List (List Nat))
    (u s : List Nat), u ∈ shapesR → s ∈ shapesR → d < k →
    u.getD d 1 ≠ 1 → s.getD d 1 ≠ 1 → u.getD d 1 ≠ s.getD d 1 →
    planUnifiedAux k shapesR = none := by
  intro d
  induction d with
  | zero =>
      intro k shapesR u s hu hs hk h1 h2 h3
      cases k with
      | zero => omega
      | succ d' =>
          simp only [planUnifiedAux]
          rw [planDim_none_of (shapesR.map (fun t => t.headD 1)) (u.headD 1)
            (s.headD 1) (List.mem_map_of_mem _ hu) (List.mem_map_of_mem _ hs)
            (by rw [headD_eq_getD]; exact h1)
            (by rw [headD_eq_getD]; exact h2)
            (by rw [headD_eq_getD, headD_eq_getD]; exact h3)]
  | succ d' ih =>
      intro k shapesR u s hu hs hk h1 h2 h3
      cases k with
      | zero => omega
      | succ k' =>
          simp only [planUnifiedAux]
          rw [ih k' (shapesR.map List.tail) u.tail s.tail
            (List.mem_map_of_mem _ hu) (List.mem_map_of_mem _ hs) (by omega)
            (by rw [getD_tail]; exact h1)
            (by rw [getD_tail]; exact h2)
            (by rw [getD_tail, getD_tail]; exact h3)]
          cases hpd : planDim (shapesR.map (fun t => t.headD 1)) <;> rfl

/-- Compatible participants make the planner succeed. -/
theorem planAux_compat : ∀ (k : Nat) (shapesR : List (List Nat)),
    (∀ d : Nat, ∀ u ∈ shapesR, ∀ s ∈ shapesR,
      u.getD d 1 = 1 ∨ s.getD d 1 = 1 ∨ u.getD d 1 = s.getD d 1) →
    (planUnifiedAux k shapesR).isSome := by
  intro k
  induction k with
  | zero => intro shapesR _; simp [planUnifiedAux]
  | succ k' ih =>
      intro shapesR h
      have h0 : (planDim (shapesR.map (fun t => t.headD 1))).isSome := by
        apply planDim_some_of_compat
        intro a ha b hb
        obtain ⟨x, hx, rfl⟩ := List.mem_map.mp ha
        obtain ⟨y, hy, rfl⟩ := List.mem_map.mp hb
        have := h 0 x hx y hy
        rw [headD_eq_getD, headD_eq_getD]
        exact this
      have h1 : (planUnifiedAux k' (shapesR.map List.tail)).isSome := by
        apply ih
        intro d u hu s hs
        obtain ⟨x, hx, rfl⟩ := List.mem_map.mp hu
        obtain ⟨y, hy, rfl⟩ := List.mem_map.mp hs
        have := h (d + 1) x hx y hy
        rw [getD_tail, getD_tail]
        exact this
      obtain ⟨e, he⟩ := Option.isSome_iff_exists.mp h0
      obtain ⟨r, hr⟩ := Option.isSome_iff_exists.mp h1
      simp only [planUnifiedAux]
      rw [he, hr]
      rfl

end BroadcastLemmas

section Claims

/-- C1: for every run of the Recursive Kernel Executor (run_higher_dimensional
entered at dim_level 0) whose kernel completes every leaf, each base-case
invocation passes, for every operand, a data pointer equal to that operand's
original data pointer plus the sum over all enclosing dimensions of the loop
index at that dimension times that operand's stride at that dimension (the
invSpec prediction), and the leaf invocations occur exactly once per index
combination of the enclosing dimensions, in outside-in lexicographic
iteration order: the trace equals the lexIndices enumeration mapped through
the predicted invocation, that enumeration has no duplicates, and it contains
precisely the valid index combinations. -/
theorem claim1_executor_invariant {E : Type} (k : Kernel E)
    (hk : ∀ a b c, k a b c = Except.ok ())
    (shape : List Int) (strides : List (List Int)) (n ndim : Nat)
    (st : ExecState)
    (hso : st.soff = List.replicate n 0) (hd : st.data.length = n)
    (hs : strides.length = n) (hnn : ∀ x ∈ shape, 0 ≤ x)
    (hlen : shape.length = ndim) :
    runHD k shape strides ndim 0 st =
      ((lexIndices ((shape.take (ndim - 2)).map Int.toNat)).map
          (invSpec shape strides st ndim 0), st, none) ∧
    (lexIndices ((shape.take (ndim - 2)).map Int.toNat)).Nodup ∧
    (∀ ix : List Nat, ix ∈ lexIndices ((shape.take (ndim - 2)).map Int.toNat) ↔
        List.Forall₂ (fun i e => i < e) ix ((shape.take (ndim - 2)).map Int.toNat)) := by
  refine ⟨?_, lexIndices_nodup _, fun ix => mem_lexIndices _ ix⟩
  have h := runHD_ok k hk shape strides n hs hnn ndim 0 st hso hd (by omega)
  simpa using h

/-- Witness for C1 at the spec's synthetic 4-dimensional shape (2,3,2,3) with
row-major element strides (18,6,3,1) for a single operand based at 0: the
six enclosing index combinations produce base addresses 0,6,12,18,24,30. -/
theorem claim1_executor_invariant_witness :
    runHD (fun _ _ _ => Except.ok () : Kernel Unit) [2, 3, 2, 3] [[18, 6, 3, 1]] 4 0
        { data := [0], soff := [0] } =
      ((lexIndices ((([2, 3, 2, 3] : List Int).take 2).map Int.toNat)).map
          (invSpec [2, 3, 2, 3] [[18, 6, 3, 1]] { data := [0], soff := [0] } 4 0),
        { data := [0], soff := [0] }, none) ∧
    ((runHD (fun _ _ _ => Except.ok () : Kernel Unit) [2, 3, 2, 3] [[18, 6, 3, 1]] 4 0
        { data := [0], soff := [0] }).1.map Inv.data =
      [[0], [6], [12], [18], [24], [30]]) :=
  ⟨(claim1_executor_invariant (fun _ _ _ => Except.ok ()) (fun _ _ _ => rfl)
      [2, 3, 2, 3] [[18, 6, 3, 1]] 1 4 { data := [0], soff := [0] }
      rfl rfl rfl (by decide) rfl).1,
    by decide⟩

/-- C5 as stated is false: with a kernel that fails on its second leaf
invocation (shape (2,1,1), one operand with stride row (5,7,3), base data
pointer 100, failing once the data pointer reaches 105), the failure does
propagate to the caller, but the exit pointer state is not the entry state:
the data pointer is left at 105 (the advance of the completed first
iteration is never rewound) and the stride pointer is left offset by 1 (the
base-case restore step is skipped on the error path). -/
theorem claim5_counterexample :
    (runHD (fun _ d _ => if 105 ≤ d.headD 0 then Except.error () else Except.ok () :
          Kernel Unit) [2, 1, 1] [[5, 7, 3]] 3 0 { data := [100], soff := [0] }).2.2 =
        some () ∧
    (runHD (fun _ d _ => if 105 ≤ d.headD 0 then Except.error () else Except.ok () :
          Kernel Unit) [2, 1, 1] [[5, 7, 3]] 3 0 { data := [100], soff := [0] }).2.1 ≠
        { data := [100], soff := [0] } ∧
    (runHD (fun _ d _ => if 105 ≤ d.headD 0 then Except.error () else Except.ok () :
          Kernel Unit) [2, 1, 1] [[5, 7, 3]] 3 0 { data := [100], soff := [0] }).2.1 =
        { data := [105], soff := [1] } := by
  decide

/-- C5 amended: when a leaf invocation fails, the failure propagates
unchanged through every enclosing recursion level to the caller — the error
returned is exactly the error the kernel produced at the last leaf
invocation of the trace — but the pointer rewind steps do not execute on the
error path: the data pointers are left exactly where the failing invocation
saw them (retaining the advances of all completed iterations) and every
stride pointer is left offset by the base-case dim_level, ndim - 2. -/
theorem claim5_failure_propagation {E : Type} (k : Kernel E)
    (shape : List Int) (strides : List (List Int)) (n ndim : Nat)
    (st : ExecState)
    (hso : st.soff = List.replicate n 0) (hd : st.data.length = n)
    (hs : strides.length = n) (hnn : ∀ x ∈ shape, 0 ≤ x)
    (hlen : shape.length = ndim) :
    ∀ tr s' e, runHD k shape strides ndim 0 st = (tr, s', some e) →
      ∃ h : tr ≠ [],
        k (tr.getLast h).shape (tr.getLast h).data (tr.getLast h).strides =
            Except.error e ∧
        s'.data = (tr.getLast h).data ∧
        s'.soff = List.replicate n (ndim - 2) := by
  intro tr s' e heq
  have h := runHD_error k shape strides n hs hnn ndim 0 st hso hd (by omega)
    tr s' e heq
  simpa using h

/-- Witness for the amended C5 at the counterexample input: the kernel's
error at the second (last) leaf invocation is the error returned, the exit
data pointer is the failing invocation's 105, and the stride-pointer offsets
are all ndim - 2 = 1. -/
theorem claim5_failure_propagation_witness :
    ∃ h : ([{ shape := ([1, 1] : List Int), data := [100], strides := [[7, 3]] },
            { shape := ([1, 1] : List Int), data := [105], strides := [[7, 3]] }] :
              List Inv) ≠ [],
      (fun _ d _ => if 105 ≤ d.headD 0 then Except.error () else Except.ok () :
          Kernel Unit)
          (([{ shape := ([1, 1] : List Int), data := [100], strides := [[7, 3]] },
              { shape := ([1, 1] : List Int), data := [105], strides := [[7, 3]] }] :
                List Inv).getLast h).shape
          (([{ shape := ([1, 1] : List Int), data := [100], strides := [[7, 3]] },
              { shape := ([1, 1] : List Int), data := [105], strides := [[7, 3]] }] :
                List Inv).getLast h).data
          (([{ shape := ([1, 1] : List Int), data := [100], strides := [[7, 3]] },
              { shape := ([1, 1] : List Int), data := [105], strides := [[7, 3]] }] :
                List Inv).getLast h).strides = Except.error () ∧
      (({ data := [105], soff := [1] } : ExecState)).data =
          (([{ shape := ([1, 1] : List Int), data := [100], strides := [[7, 3]] },
              { shape := ([1, 1] : List Int), data := [105], strides := [[7, 3]] }] :
                List Inv).getLast h).data ∧
      (({ data := [105], soff := [1] } : ExecState)).soff = List.replicate 1 (3 - 2) :=
  claim5_failure_propagation
    (fun _ d _ => if 105 ≤ d.headD 0 then Except.error () else Except.ok ())
    [2, 1, 1] [[5, 7, 3]] 1 3 { data := [100], soff := [0] }
    rfl rfl rfl (by decide) rfl
    _ _ () (by decide)

/-- C4: when the fully-contiguous strategy was selected and the broadcast
dimensionality exceeds 3, run_ufunc replaces shape entry 0 by the product of
the original extent at index 0 with the extents at indices 3 through
ndim - 1; when ndim is 3 or less, or when any other strategy was selected,
no shape entry is modified. -/
theorem claim4_collapse (contig : Bool) (ndim : Nat) (shape : List Int) :
    (contig = true → 3 < ndim → ndim ≤ shape.length →
      runUFuncShape contig ndim shape =
        shape.set 0 (shape.getD 0 0 * ((shape.drop 3).take (ndim - 3)).prod)) ∧
    (ndim ≤ 3 ∨ contig = false → runUFuncShape contig ndim shape = shape) := by
  constructor
  · intro hc h3 hlen
    subst hc
    exact runUFuncShape_eq_set ndim shape h3 hlen
  · intro h
    rw [runUFuncShape, if_neg ?_]
    rcases h with h | h
    · simp
      omega
    · simp [h]

/-- Witness for C4: a 5-dimensional fully-contiguous shape (2,3,2,3,4) has
entry 0 inflated to 2*3*4 = 24 and nothing else changed, while a
3-dimensional contiguous call and a non-contiguous 5-dimensional call leave
the shape untouched. -/
theorem claim4_collapse_witness :
    runUFuncShape true 5 [2, 3, 2, 3, 4] = [24, 3, 2, 3, 4] ∧
    runUFuncShape true 3 [9, 9, 9] = [9, 9, 9] ∧
    runUFuncShape false 5 [2, 3, 2, 3, 4] = [2, 3, 2, 3, 4] :=
  ⟨((claim4_collapse true 5 [2, 3, 2, 3, 4]).1 rfl (by decide) (by decide)).trans
      (by decide),
    (claim4_collapse true 3 [9, 9, 9]).2 (Or.inl (by decide)),
    (claim4_collapse false 5 [2, 3, 2, 3, 4]).2 (Or.inr rfl)⟩

/-- C10: when the collapse applies (fully-contiguous strategy, ndim above
3), only shape entry 0 changes: entries 1 onward keep their values, the
length is preserved, and the executor is invoked with the collapsed shape
but the pre-collapse stride rows, data pointers and dimension count, so it
still recurses over the original ndim - 2 outer dimensions using the
inflated extent at index 0 — the run performs one leaf invocation per index
combination of the first ndim - 2 collapsed extents, each computed from the
original strides and data pointers. -/
theorem claim10_collapse_frame {E : Type} (k : Kernel E)
    (hk : ∀ a b c, k a b c = Except.ok ())
    (shape : List Int) (data : List Int) (strides : List (List Int)) (n ndim : Nat)
    (hd : data.length = n) (hs : strides.length = n)
    (hnn : ∀ x ∈ shape, 0 ≤ x) (hlen : shape.length = ndim) (hn3 : 3 < ndim) :
    (∀ i : Nat, 1 ≤ i → (runUFuncShape true ndim shape).getD i 0 = shape.getD i 0) ∧
    (runUFuncShape true ndim shape).length = shape.length ∧
    runUFunc k true ndim shape data strides =
      ((lexIndices (((runUFuncShape true ndim shape).take (ndim - 2)).map
            Int.toNat)).map
          (invSpec (runUFuncShape true ndim shape) strides
            { data := data, soff := List.replicate strides.length 0 } ndim 0),
        { data := data, soff := List.replicate strides.length 0 }, none) ∧
    (runUFunc k true ndim shape data strides).1.length =
      (((runUFuncShape true ndim shape).take (ndim - 2)).map Int.toNat).prod := by
  have hset : runUFuncShape true ndim shape =
      shape.set 0 (shape.getD 0 0 * ((shape.drop 3).take (ndim - 3)).prod) :=
    runUFuncShape_eq_set ndim shape hn3 (by omega)
  have hg0 : 0 ≤ shape.getD 0 0 := by
    have h0 : 0 < shape.length := by omega
    rw [List.getD_eq_getElem shape 0 h0]
    exact hnn _ (List.getElem_mem h0)
  have hnn' : ∀ x ∈ runUFuncShape true ndim shape, 0 ≤ x := by
    rw [hset]
    intro x hx
    rcases List.mem_or_eq_of_mem_set hx with h | h
    · exact hnn x h
    · subst h
      refine mul_nonneg hg0 (List.prod_nonneg ?_)
      intro y hy
      exact hnn y (List.mem_of_mem_drop (List.mem_of_mem_take hy))
  have hclen : (runUFuncShape true ndim shape).length = shape.length := by
    rw [hset, List.length_set]
  have hso0 : ({ data := data, soff := List.replicate strides.length 0 } :
      ExecState).soff = List.replicate n 0 := by
    simp [hs]
  have hrun := runHD_ok k hk (runUFuncShape true ndim shape) strides n hs hnn'
    ndim 0 { data := data, soff := List.replicate strides.length 0 }
    hso0 hd (by rw [hclen]; omega)
  have hrun' : runHD k (runUFuncShape true ndim shape) strides ndim 0
      { data := data, soff := List.replicate strides.length 0 } =
      ((lexIndices (((runUFuncShape true ndim shape).take (ndim - 2)).map
          Int.toNat)).map
        (invSpec (runUFuncShape true ndim shape) strides
          { data := data, soff := List.replicate strides.length 0 } ndim 0),
        { data := data, soff := List.replicate strides.length 0 }, none) := by
    simpa using hrun
  refine ⟨?_, hclen, ?_, ?_⟩
  · intro i hi
    rw [hset]
    simp [List.getD_eq_getElem?_getD,
      List.getElem?_set_ne (show (0 : Nat) ≠ i from by omega)]
  · rw [runUFunc]
    exact hrun'
  · rw [runUFunc, hrun']
    simp [lexIndices_length]

/-- Witness for C10: a contiguous 4-dimensional call with shape (1,1,1,2)
runs the executor on the collapsed shape (2,1,1,2) with the original stride
row (3,5,7,1) and data pointer 0, producing the two leaf invocations at
addresses 0 and 3 predicted by the original strides. -/
theorem claim10_collapse_frame_witness :
    runUFunc (fun _ _ _ => Except.ok () : Kernel Unit) true 4 [1, 1, 1, 2] [0]
        [[3, 5, 7, 1]] =
      ((lexIndices (((runUFuncShape true 4 [1, 1, 1, 2]).take 2).map Int.toNat)).map
          (invSpec (runUFuncShape true 4 [1, 1, 1, 2]) [[3, 5, 7, 1]]
            { data := [0], soff := List.replicate 1 0 } 4 0),
        { data := [0], soff := List.replicate 1 0 }, none) ∧
    (runUFunc (fun _ _ _ => Except.ok () : Kernel Unit) true 4 [1, 1, 1, 2] [0]
        [[3, 5, 7, 1]]).1.map Inv.data = [[0], [3]] :=
  ⟨(claim10_collapse_frame (fun _ _ _ => Except.ok ()) (fun _ _ _ => rfl)
      [1, 1, 1, 2] [0] [[3, 5, 7, 1]] 1 4 rfl rfl (by decide) rfl (by decide)).2.2.1,
    by decide⟩

/-- C8: a call supplying a number of positional operands different from the
registered arity fails with ArityError, and the effect log is empty: no
broadcasting and no allocation happened before the failure. -/
theorem claim8_arity (table : List ((List Nat × Nat) × Bundle)) (nin : Nat)
    (itemsize : Nat → Int) (freshAddr : Int) (args : List Arr) (out : Option Arr)
    (h : args.length ≠ nin) :
    dispatchCall table nin itemsize freshAddr args out =
      ([], Except.error DispatchError.arityError) := by
  simp [dispatchCall, h]

/-- Witness for C8: one argument for a registered 2-input operation. -/
theorem claim8_arity_witness :
    dispatchCall [] 2 (fun _ => 1) 0
        [{ shape := [3], strides := [1], itemsize := 1, dtype := 0, addr := 0 }]
        none =
      ([], Except.error DispatchError.arityError) :=
  claim8_arity [] 2 (fun _ => 1) 0
    [{ shape := [3], strides := [1], itemsize := 1, dtype := 0, addr := 0 }]
    none (by decide)

/-- C6: when the operands broadcast successfully but the key (input dtypes,
broadcast ndim) has no registered bundle, dispatch fails with
UnsupportedSignature before any kernel runs, and the effect log shows only
the broadcast: no output buffer was allocated or mutated, no kernel ran,
and the exact-match lookup is neither retried nor coerced. -/
theorem claim6_unsupported (table : List ((List Nat × Nat) × Bundle)) (nin : Nat)
    (itemsize : Nat → Int) (freshAddr : Int) (args : List Arr) (out : Option Arr)
    (unified : List Nat)
    (harity : args.length = nin)
    (hbc : npBroadcastShapes ((broadcastOperands args out).map Arr.shape) =
      some unified)
    (hlook : lookupSig table (args.map Arr.dtype, unified.length) = none) :
    dispatchCall table nin itemsize freshAddr args out =
      ([Effect.broadcasted unified],
        Except.error DispatchError.unsupportedSignature) := by
  have h1 : dispatchCall table nin itemsize freshAddr args out =
      (match lookupSig table (args.map Arr.dtype, unified.length) with
        | none => ([Effect.broadcasted unified],
            Except.error DispatchError.unsupportedSignature)
        | some bundle =>
            dispatchRun args out (getArraysOrdering args) unified bundle
              itemsize freshAddr) := by
    simp only [dispatchCall]
    rw [if_neg (by simp [harity]), hbc]
  rw [h1, hlook]

/-- Witness for C6: a call whose input dtype tag 0 is not the registered
tag 9 fails with UnsupportedSignature and an effect log holding only the
broadcast. -/
theorem claim6_unsupported_witness :
    dispatchCall
        [(([9], 1),
          { contigFunc := 1, innerContigFunc := 2, tiledFunc := 3,
            stridedFunc := 4, resultDtype := 9 })] 1 (fun _ => 8) 0
        [{ shape := [3], strides := [8], itemsize := 8, dtype := 0, addr := 0 }]
        none =
      ([Effect.broadcasted [3]],
        Except.error DispatchError.unsupportedSignature) :=
  claim6_unsupported
    [(([9], 1),
      { contigFunc := 1, innerContigFunc := 2, tiledFunc := 3,
        stridedFunc := 4, resultDtype := 9 })] 1 (fun _ => 8) 0
    [{ shape := [3], strides := [8], itemsize := 8, dtype := 0, addr := 0 }]
    none [3] rfl (by decide) (by decide)

/-- C9 fails on the code: the allocation itself follows the spec (a fresh
buffer with the unified shape, the bundle's result dtype and the
classifier's preferred order is created and handed to the kernel as the
first array), but the call does not return it: run_ufunc has no return
statement, so __call__ returns None.  Evaluated here at a concrete
successful call: the log shows the allocation of the 3x4 row-major buffer
of the result dtype and the kernel run on it, while the call's value is
none, not the output buffer. -/
theorem claim9_returns_none :
    dispatchCall
        [(([0], 2),
          { contigFunc := 11, innerContigFunc := 12, tiledFunc := 13,
            stridedFunc := 14, resultDtype := 5 })] 1 (fun _ => 8) 1000
        [{ shape := [3, 4], strides := [32, 8], itemsize := 8, dtype := 0,
            addr := 100 }] none =
      ([Effect.broadcasted [3, 4],
        Effect.allocated [3, 4] 5 MemOrder.rowMajor,
        Effect.selected Strategy.contig,
        Effect.ranKernel 11
          [{ shape := [3, 4], strides := [32, 8], itemsize := 8, dtype := 5,
              addr := 1000 },
            { shape := [3, 4], strides := [32, 8], itemsize := 8, dtype := 0,
              addr := 100 }]],
        Except.ok none) ∧
    (Except.ok none : Except DispatchError (Option Arr)) ≠
      Except.ok (some { shape := [3, 4], strides := [32, 8], itemsize := 8,
                        dtype := 5, addr := 1000 }) :=
  ⟨rfl, by simp⟩

/-- The selection chain picks the fully-contiguous strategy exactly when the
contiguity flag is set and no broadcasting was detected. -/
theorem classifyStrategy_contig_iff (f : OrderFlags) (b : Bool) :
    classifyStrategy f b = Strategy.contig ↔
      (f.arraysAreContig = true ∧ b = false) := by
  rcases f with ⟨c, ic, t, co⟩
  cases c <;> cases ic <;> cases t <;> cases co <;> cases b <;> decide

/-- With all three layout flags clear, the selection chain falls back to the
strided strategy. -/
theorem classifyStrategy_strided (f : OrderFlags) (b : Bool)
    (h1 : f.arraysAreContig = false) (h2 : f.arraysAreInnerContig = false)
    (h3 : f.arraysAreMixed = false) :
    classifyStrategy f b = Strategy.strided := by
  rcases f with ⟨c, ic, t, co⟩
  simp only at h1 h2 h3
  subst h1; subst h2; subst h3
  simp [classifyStrategy]

/-- The contiguity flag holds exactly when the inputs uniformly match the
row-major, or uniformly the column-major, strides implied by their shapes. -/
theorem arraysAreContig_iff (args : List Arr) :
    (getArraysOrdering args).arraysAreContig = true ↔
      (∀ a ∈ args, a.strides = cStrides a.itemsize a.shape) ∨
      (∀ a ∈ args, a.strides = fStrides a.itemsize a.shape) := by
  simp [getArraysOrdering, List.all_eq_true, isCContig, isFContig]

/-- No broadcasting is detected exactly when every participating operand
already has the unified shape. -/
theorem isBroadcasting_false_iff (bargs : List Arr) (unified : List Nat) :
    isBroadcasting bargs unified = false ↔
      ∀ b ∈ bargs, b.shape = unified := by
  simp [isBroadcasting]

/-- C3 as stated is false: overlap between the output and the inputs is not
checked anywhere (the classifier is called on the inputs only, and the
source carries a TODO for the read-after-write check), so a call whose
supplied output IS its input buffer — complete memory overlap — still
selects the fully-contiguous strategy and runs the contiguous kernel on the
aliased pair. -/
theorem claim3_counterexample :
    dispatchCall
        [(([0], 2),
          { contigFunc := 11, innerContigFunc := 12, tiledFunc := 13,
            stridedFunc := 14, resultDtype := 5 })] 1 (fun _ => 8) 1000
        [{ shape := [3, 4], strides := [32, 8], itemsize := 8, dtype := 0,
            addr := 100 }]
        (some { shape := [3, 4], strides := [32, 8], itemsize := 8, dtype := 0,
                addr := 100 }) =
      ([Effect.broadcasted [3, 4],
        Effect.selected Strategy.contig,
        Effect.ranKernel 11
          [{ shape := [3, 4], strides := [32, 8], itemsize := 8, dtype := 0,
              addr := 100 },
            { shape := [3, 4], strides := [32, 8], itemsize := 8, dtype := 0,
              addr := 100 }]],
        Except.ok none) := rfl

/-- C3 amended: the fully-contiguous strategy is selected exactly when every
input's strides match the row-major (or uniformly column-major) strides
implied by its shape and every broadcast participant (inputs plus supplied
output) already has the unified shape — under those conditions the input
strides equal the strides implied by the unified shape itself; memory
overlap between output and inputs is not part of the condition (it is never
checked).  When the contiguity, inner-contiguity and mixed flags are all
clear, the strided fallback is selected. -/
theorem claim3_strategy_amended (args : List Arr) (out : Option Arr)
    (unified : List Nat) :
    (classifyStrategy (getArraysOrdering args)
        (isBroadcasting (broadcastOperands args out) unified) = Strategy.contig ↔
      (((∀ a ∈ args, a.strides = cStrides a.itemsize a.shape) ∨
          (∀ a ∈ args, a.strides = fStrides a.itemsize a.shape)) ∧
        ∀ b ∈ broadcastOperands args out, b.shape = unified)) ∧
    (classifyStrategy (getArraysOrdering args)
        (isBroadcasting (broadcastOperands args out) unified) = Strategy.contig →
      ((∀ a ∈ args, a.strides = cStrides a.itemsize unified) ∨
        (∀ a ∈ args, a.strides = fStrides a.itemsize unified))) ∧
    ((getArraysOrdering args).arraysAreContig = false →
      (getArraysOrdering args).arraysAreInnerContig = false →
      (getArraysOrdering args).arraysAreMixed = false →
      classifyStrategy (getArraysOrdering args)
        (isBroadcasting (broadcastOperands args out) unified) = Strategy.strided) := by
  refine ⟨?_, ?_, ?_⟩
  · rw [classifyStrategy_contig_iff, arraysAreContig_iff, isBroadcasting_false_iff]
  · intro h
    have h2 := (classifyStrategy_contig_iff _ _).mp h
    have hcs := (arraysAreContig_iff args).mp h2.1
    have hshapes := (isBroadcasting_false_iff _ _).mp h2.2
    have hmem : ∀ a ∈ args, a ∈ broadcastOperands args out := by
      intro a ha
      simp [broadcastOperands, ha]
    rcases hcs with hC | hF
    · left
      intro a ha
      rw [← hshapes a (hmem a ha)]
      exact hC a ha
    · right
      intro a ha
      rw [← hshapes a (hmem a ha)]
      exact hF a ha
  · intro h1 h2 h3
    exact classifyStrategy_strided _ _ h1 h2 h3

/-- Witness for the amended C3: a single C-contiguous 3x4 input with no
supplied output selects the fully-contiguous strategy via the amended
characterization. -/
theorem claim3_strategy_amended_witness :
    classifyStrategy
        (getArraysOrdering
          [{ shape := [3, 4], strides := [32, 8], itemsize := 8, dtype := 0,
              addr := 100 }])
        (isBroadcasting
          (broadcastOperands
            [{ shape := [3, 4], strides := [32, 8], itemsize := 8, dtype := 0,
                addr := 100 }] none) [3, 4]) = Strategy.contig :=
  (claim3_strategy_amended
      [{ shape := [3, 4], strides := [32, 8], itemsize := 8, dtype := 0,
          addr := 100 }] none [3, 4]).1.mpr (by decide)

/-- C2 as stated is false on one point: a stride-0 dimension in the plan
need not come from a declared extent-1 dimension.  An operand that itself
declares stride 0 on an extent-2 dimension (e.g. a broadcast view passed in
by the caller) keeps that zero stride in the plan: for shape (2), strides
(0), the unified shape is (2) and the planned stride vector is (0), yet the
declared extent at that dimension is 2, not 1. -/
theorem claim2_counterexample :
    npBroadcastShapes [[2]] = some [2] ∧
    (plannedStrides [2]
        { shape := [2], strides := [0], itemsize := 8, dtype := 0,
          addr := 0 }).getD 0 0 = 0 ∧
    ({ shape := [2], strides := [0], itemsize := 8, dtype := 0,
        addr := 0 } : Arr).shape.getD 0 1 ≠ 1 := by
  decide

/-- C2 amended: the Broadcast Planner's unified shape (the spec 4.1 joint
per-dimension rule) equals the standard NumPy broadcasting result (the
pairwise fold np.broadcast computes) for every list of operand shapes; and
a dimension of an operand's planned stride vector is 0 exactly when it is a
left-padding dimension, or the operand declares extent 1 there while the
unified extent is greater, or the operand itself declares stride 0 there —
the claim's exact correspondence with declared extent-1 dimensions holds
whenever the operand declares no zero strides. -/
theorem claim2_plan_amended :
    (∀ shapes : List (List Nat), planUnified shapes = npBroadcastShapes shapes) ∧
    (∀ (u : List Nat) (a : Arr), a.shape.length ≤ u.length →
      a.strides.length = a.shape.length → ∀ d : Nat, d < u.length →
      ((plannedStrides u a).getD d 0 = 0 ↔
        d < u.length - a.shape.length ∨
        (a.shape.getD (d - (u.length - a.shape.length)) 1 = 1 ∧
          1 < u.getD d 1) ∨
        a.strides.getD (d - (u.length - a.shape.length)) 0 = 0)) := by
  refine ⟨planUnified_eq_npBroadcast, ?_⟩
  intro u a hle hstr d hd
  rw [plannedStrides_getD u a hle hstr d hd]
  split_ifs with h1 h2
  · exact ⟨fun _ => Or.inl h1, fun _ => rfl⟩
  · exact ⟨fun _ => Or.inr (Or.inl h2), fun _ => rfl⟩
  · constructor
    · intro h
      exact Or.inr (Or.inr h)
    · rintro (h | h | h)
      · exact absurd h h1
      · exact absurd h h2
      · exact h

/-- Witness for the amended C2: shapes (3,1) and (4) broadcast to (3,4) by
both rules, and for an operand of shape (3), strides (8) against unified
shape (2,3), dimension 0 is a padding dimension with planned stride 0 while
dimension 1 keeps the declared nonzero stride. -/
theorem claim2_plan_amended_witness :
    planUnified [[3, 1], [4]] = npBroadcastShapes [[3, 1], [4]] ∧
    ((plannedStrides [2, 3]
        { shape := [3], strides := [8], itemsize := 8, dtype := 0,
          addr := 0 }).getD 0 0 = 0 ↔
      (0 : Nat) < 1 ∨ ((3 : Nat) = 1 ∧ 1 < 2) ∨ (8 : Int) = 0) :=
  ⟨claim2_plan_amended.1 [[3, 1], [4]],
    claim2_plan_amended.2 [2, 3]
      { shape := [3], strides := [8], itemsize := 8, dtype := 0, addr := 0 }
      (by decide) (by decide) 0 (by decide)⟩

/-- C7: two participants declaring differing extents both greater than 1 at
the same trailing-aligned dimension make the whole dispatch call fail with
ShapeMismatch and an empty effect log — no output is allocated or exposed —
while broadcast-compatible participant shapes always broadcast
successfully. -/
theorem claim7_shape_mismatch (table : List ((List Nat × Nat) × Bundle))
    (nin : Nat) (itemsize : Nat → Int) (freshAddr : Int) (args : List Arr)
    (out : Option Arr) (harity : args.length = nin) :
    ((∃ a, a ∈ broadcastOperands args out ∧ ∃ b, b ∈ broadcastOperands args out ∧
        ∃ d : Nat, 1 < a.shape.reverse.getD d 1 ∧ 1 < b.shape.reverse.getD d 1 ∧
          a.shape.reverse.getD d 1 ≠ b.shape.reverse.getD d 1) →
      dispatchCall table nin itemsize freshAddr args out =
        ([], Except.error DispatchError.shapeMismatch)) ∧
    ((∀ d : Nat, ∀ a, a ∈ broadcastOperands args out →
        ∀ b, b ∈ broadcastOperands args out →
        a.shape.reverse.getD d 1 = 1 ∨ b.shape.reverse.getD d 1 = 1 ∨
        a.shape.reverse.getD d 1 = b.shape.reverse.getD d 1) →
      (npBroadcastShapes ((broadcastOperands args out).map Arr.shape)).isSome) := by
  constructor
  · rintro ⟨a, ha, b, hb, d, h1, h2, h3⟩
    have hda : d < a.shape.reverse.length := by
      by_contra hcon
      rw [List.getD_eq_default _ _ (by omega)] at h1
      omega
    have hma : a.shape.reverse ∈
        ((broadcastOperands args out).map Arr.shape).map List.reverse :=
      List.mem_map_of_mem _ (List.mem_map_of_mem _ ha)
    have hmb : b.shape.reverse ∈
        ((broadcastOperands args out).map Arr.shape).map List.reverse :=
      List.mem_map_of_mem _ (List.mem_map_of_mem _ hb)
    have hdk : d < maxLen (((broadcastOperands args out).map Arr.shape).map
        List.reverse) := by
      have := length_le_maxLen _ _ hma
      omega
    have hpl := planAux_conflict d _ _ a.shape.reverse b.shape.reverse hma hmb
      hdk (by omega) (by omega) h3
    have hnone : npBroadcastShapes ((broadcastOperands args out).map Arr.shape) =
        none := by
      rw [← planUnified_eq_npBroadcast]
      unfold planUnified
      rw [hpl]
      rfl
    simp only [dispatchCall]
    rw [if_neg (by simp [harity]), hnone]
  · intro hc
    rw [← planUnified_eq_npBroadcast]
    unfold planUnified
    rw [Option.isSome_map']
    apply planAux_compat
    intro d u hu s hs
    obtain ⟨x, hx, rfl⟩ := List.mem_map.mp hu
    obtain ⟨xa, hxa, rfl⟩ := List.mem_map.mp hx
    obtain ⟨y, hy, rfl⟩ := List.mem_map.mp hs
    obtain ⟨ya, hya, rfl⟩ := List.mem_map.mp hy
    exact hc d xa hxa ya hya

/-- Witness for C7: the spec's example shapes (3,4) against (3,5) fail with
ShapeMismatch and an empty effect log. -/
theorem claim7_shape_mismatch_witness :
    dispatchCall [] 2 (fun _ => 8) 0
        [{ shape := [3, 4], strides := [32, 8], itemsize := 8, dtype := 0,
            addr := 0 },
          { shape := [3, 5], strides := [40, 8], itemsize := 8, dtype := 0,
            addr := 200 }] none =
      ([], Except.error DispatchError.shapeMismatch) :=
  (claim7_shape_mismatch [] 2 (fun _ => 8) 0
      [{ shape := [3, 4], strides := [32, 8], itemsize := 8, dtype := 0,
          addr := 0 },
        { shape := [3, 5], strides := [40, 8], itemsize := 8, dtype := 0,
          addr := 200 }] none rfl).1
    ⟨{ shape := [3, 4], strides := [32, 8], itemsize := 8, dtype := 0,
        addr := 0 }, by decide,
      { shape := [3, 5], strides := [40, 8], itemsize := 8, dtype := 0,
        addr := 200 }, by decide, 0, by decide, by decide, by decide⟩

end Claims

end MiniDispatch
